import Mathlib

/-!
Verification of the value-generation engine of the `openapi-mocks` repository.

The engine lives in `packages/openapi-mocks/src/generators/schema-walker.ts`
with helpers in `generators/smart-defaults.ts`, `generators/type-fallback.ts`
and a path-override module (`setByPath` / `applyOverrides`).

Modelling conventions:
  * JavaScript values produced by the engine are modelled by `JValue`
    (null / boolean / number / string / array / object).  JavaScript numbers
    are modelled as integers: no claim under verification depends on
    floating-point behaviour.
  * JavaScript objects are insertion-ordered string-keyed maps; they are
    modelled as association lists with JS assignment semantics (`jsSet`
    updates an existing key in place, otherwise appends).
  * Schema trees in the source are heap graphs: circular-reference detection
    uses object identity (`Set<object>`).  We model the heap as a store
    (`Env.doc : List SchemaNode`), sub-schema positions hold node ids
    (`Nat`), and identity is id equality.  Schemas created at runtime by
    `mergeAllOf` are fresh records and are passed by value.
  * The Faker random provider is out of scope per the spec ("an opaque
    seedable service keyed by hierarchical method names"): it is modelled as
    a deterministic pure state machine (`FakerState`, an LCG) whose leaf
    methods are the opaque call `fCall`.  `faker.number.int({min,max})` is
    `fInt`, `faker.datatype.boolean()` is `fBool`.
  * The engine's recursion is not structurally terminating on circular
    schema graphs (that fact is itself one of the verified claims), so every
    recursive procedure is fuel-indexed and returns `Except GenErr _`;
    `GenErr.noFuel` marks fuel exhaustion, `GenErr.thrown msg` models a
    thrown `OpenApiMocksError`.
-/

/-- JavaScript values generated by the engine (JSON-like data). -/
inductive JValue where
  | null : JValue
  | bool (b : Bool) : JValue
  | num (n : Int) : JValue
  | str (s : String) : JValue
  | arr (elems : List JValue) : JValue
  | obj (fields : List (String × JValue)) : JValue

/-- The field list of an object value (empty for non-objects); used to
observe generated objects. -/
def JValue.objFields : JValue → List (String × JValue)
  | .obj fields => fields
  | _ => []

/-- First-match association-list lookup; JS object keys are unique, so this
is `overrides[k]` / `properties[k]`. -/
def jsGet {α : Type} (m : List (String × α)) (k : String) : Option α :=
  (m.find? (fun p => p.1 = k)).map (fun p => p.2)

/-- JS object property assignment: update an existing key in place (keeping
insertion order), otherwise append the new key at the end. -/
def jsSet {α : Type} : List (String × α) → String → α → List (String × α)
  | [], k, v => [(k, v)]
  | (k', v') :: rest, k, v =>
      if k' = k then (k, v) :: rest else (k', v') :: jsSet rest k v

/-- JS `key in obj` / `hasOwnProperty`. -/
def jsHas {α : Type} (m : List (String × α)) (k : String) : Bool :=
  (jsGet m k).isSome

/-- Character-list prefix test (`isPre pat s`: `pat` is a prefix of `s`). -/
def isPre : List Char → List Char → Bool
  | [], _ => true
  | _ :: _, [] => false
  | p :: ps, c :: cs => p == c && isPre ps cs

/-- JS `s.startsWith(pre)`. -/
def strStarts (s pre : String) : Bool :=
  isPre pre.toList s.toList

/-- JS `s.slice(n)` (drop the first `n` characters). -/
def strDrop (s : String) (n : Nat) : String :=
  String.mk (s.toList.drop n)

/-- JS `s.length`. -/
def strLen (s : String) : Nat :=
  s.toList.length

/-- The declared `type` of a schema: a single kind name (OpenAPI 3.0.x) or a
list of kind names (3.1.x). -/
inductive TypeVal where
  | s (t : String) : TypeVal
  | l (ts : List String) : TypeVal
deriving DecidableEq, Repr

/-- An OpenAPI discriminator object. -/
structure Disc where
  propertyName : Option String := none
  mapping : Option (List (String × String)) := none
deriving DecidableEq, Repr

/-- Identifies the schema-tree object a generated value aliases: the
`example` value of node `id`, its `default` value, or element `i` of its
`enum` list.  The source returns these by reference (no copy), which is what
makes the in-place discriminator write of `generateOneOf` observable. -/
inductive Prov where
  | exampleOf (id : Nat) : Prov
  | defaultOf (id : Nat) : Prov
  | enumOf (id : Nat) (i : Nat) : Prov
deriving DecidableEq, Repr

/-- A schema node, carrying exactly the keys the engine reads.  Sub-schema
positions (`properties`, `items`, `allOf`, `oneOf`, `anyOf`, the
discriminator mapping targets) hold node ids into `Env.doc`, mirroring the
pointer structure of the dereferenced document.  The `exampleSrc` /
`defaultSrc` / `enumSrc` fields record which stored node's field the
`example` / `default` / `enum` value is (a pointer is a pointer to a heap
cell); for a node stored at id `i` in a well-formed document they are
`some i`, and `mergeAllOf` copies them together with the value, exactly as
the source copies the reference. -/
structure SchemaNode where
  tp : Option TypeVal := none
  nullable : Option Bool := none
  example? : Option JValue := none
  exampleSrc : Option Nat := none
  default? : Option JValue := none
  defaultSrc : Option Nat := none
  xFakerMethod : Option String := none
  allOf : Option (List Nat) := none
  oneOf : Option (List Nat) := none
  anyOf : Option (List Nat) := none
  discriminator : Option Disc := none
  refStr : Option String := none
  properties : Option (List (String × Nat)) := none
  required : Option (List String) := none
  items : Option Nat := none
  minItems : Option Nat := none
  maxItems : Option Nat := none
  enum? : Option (List JValue) := none
  enumSrc : Option Nat := none
  const? : Option JValue := none
  format : Option String := none
  minimum : Option Int := none
  maximum : Option Int := none
  exclusiveMinB : Option Bool := none
  exclusiveMinN : Option Int := none
  exclusiveMaxB : Option Bool := none
  exclusiveMaxN : Option Int := none
  multipleOf : Option Int := none
  minLength : Option Nat := none
  maxLength : Option Nat := none
  pattern : Option String := none

/-- The empty schema (a JS object with none of the recognized keys). -/
def emptySchema : SchemaNode := {}

/-- The random/fake-value provider state: a linear-congruential generator.
The provider is an external collaborator; any deterministic seedable stream
is a faithful model of it. -/
structure FakerState where
  seed : Nat
deriving DecidableEq, Repr

/-- Advance the provider state and obtain a raw draw. -/
def fNext (st : FakerState) : Nat × FakerState :=
  let n := (st.seed * 1103515245 + 12345) % 2147483648
  (n, ⟨n⟩)

/-- Model of `faker.datatype.boolean()`. -/
def fBool (st : FakerState) : Bool × FakerState :=
  let (n, st') := fNext st
  (n % 2 = 1, st')

/-- Model of `faker.number.int({ min, max })`: a draw in `[lo, hi]` when
`lo ≤ hi` (all engine call sites guarantee `lo ≤ hi`; the defensive `lo`
otherwise keeps the model total). -/
def fInt (lo hi : Nat) (st : FakerState) : Nat × FakerState :=
  let (n, st') := fNext st
  (if lo ≤ hi then lo + n % (hi - lo + 1) else lo, st')

/-- Opaque provider leaf call (`faker.lorem.word()`, `faker.internet.email()`
and so on), keyed by the hierarchical method path as the spec prescribes. -/
def fCall (path : String) (st : FakerState) : JValue × FakerState :=
  let (n, st') := fNext st
  (.str (path ++ "#" ++ toString n), st')

/-- The provider's method table: which hierarchical method paths resolve to
an invocable method, and which `pattern` strings `helpers.fromRegExp`
accepts.  Both are capabilities of the external Faker instance. -/
structure FakerImpl where
  resolvable : String → Bool
  regexOk : String → Bool := fun _ => true

/-- Modelled from the spec: the NamedGeneratorInvoker (`callFakerMethod` in
`generators/faker-extension.ts`, whose source file is not in the extracted
sources; only its test suite is).  Per the spec it "resolves a hierarchical
method path (e.g. `module.method`) against the random-data provider and
invokes it, raising a descriptive error if unresolved", and per its tests
the error message names the offending path and contains `openapi-mocks`.
The provider state is advanced only on a successful invocation. -/
def fakerErrMsg (path : String) : String :=
  "openapi-mocks: \"" ++ path ++ "\" is not a valid Faker dot-path or is not invocable"

/-- Modelled from the spec (continued): raise `fakerErrMsg` when the path
does not resolve to an invocable method. -/
def callFakerMethod (impl : FakerImpl) (path : String) (st : FakerState) :
    Except String (JValue × FakerState) :=
  if impl.resolvable path then .ok (fCall path st)
  else .error (fakerErrMsg path)

/-- Generation environment: the schema heap plus the provider's method
table. -/
structure Env where
  doc : List SchemaNode
  impl : FakerImpl

/-- Dereference a node id (a pointer into the schema heap). -/
def getNode (env : Env) (id : Nat) : SchemaNode :=
  env.doc.getD id emptySchema

/-- Errors surfaced by the fueled engine: a thrown `OpenApiMocksError`
message, or fuel exhaustion (the code would still be recursing). -/
inductive GenErr where
  | thrown (msg : String) : GenErr
  | noFuel : GenErr
deriving DecidableEq, Repr

/-- A schema-tree heap write performed by the engine: property `key` of the
object aliased at `target` was set to `val` (the in-place discriminator
write of `generateOneOf`). -/
structure Mut where
  target : Prov
  key : String
  val : JValue

/-- Result of one engine call: the generated value, the advanced provider
state, the value's aliasing provenance (when the value is a schema-owned
object returned by reference), and the schema-tree writes performed. -/
structure GenOut where
  val : JValue
  st : FakerState
  prov : Option Prov := none
  muts : List Mut := []

/-- `GenerateValueOptions` of `schema-walker.ts` (minus the faker instance,
which is threaded explicitly as `FakerState`). -/
structure GenOpts where
  overrides : List (String × JValue) := []
  ignoreExamples : Bool := false
  propertyName : Option String := none
  overridePath : String := ""
  arrayLengths : List (String × (Nat × Nat)) := []
  maxDepth : Nat := 3
  depth : Nat := 0
  visited : List Nat := []

/-- Source `resolveType`: single string type (the null kind resolving to no
type), first non-null entry of a list type, else inference from
`properties` / `items`. -/
def resolveType (s : SchemaNode) : Option String :=
  match s.tp with
  | some (.s t) => if t = "null" then none else some t
  | some (.l ts) => ts.find? (fun t => t ≠ "null")
  | none =>
      if s.properties.isSome then some "object"
      else if s.items.isSome then some "array"
      else none

/-- Source `isNullable`: the 3.0.x `nullable: true` flag, or a 3.1.x list
type containing `"null"`. -/
def isNullable (s : SchemaNode) : Bool :=
  s.nullable = some true ||
    (match s.tp with
     | some (.l ts) => ts.contains "null"
     | _ => false)

/-- Faker output kinds used for smart-default conflict detection
(`FakerOutputType` in `smart-defaults.ts`; `object` is the date case). -/
inductive FOut where
  | str : FOut
  | num : FOut
  | bool : FOut
  | obj : FOut
deriving DecidableEq, Repr

/-- A smart-default entry: the Faker dot-path and its output kind. -/
structure SmartEntry where
  path : String
  outputType : FOut
deriving DecidableEq, Repr

/-- Source `normalizeName`: lowercase and strip underscores. -/
def normalizeName (name : String) : String :=
  String.mk ((name.toList.map Char.toLower).filter (fun c => c ≠ '_'))

/-- The `SMART_DEFAULTS_MAP` of `smart-defaults.ts` (insertion order kept;
the source's duplicate `username` insertion is identical to the first and
dropped).  Lookup is by exact normalized key. -/
def SMART_DEFAULTS_MAP : List (String × SmartEntry) := [
  ("firstname", ⟨"person.firstName", .str⟩),
  ("lastname", ⟨"person.lastName", .str⟩),
  ("fullname", ⟨"person.fullName", .str⟩),
  ("name", ⟨"person.fullName", .str⟩),
  ("username", ⟨"internet.username", .str⟩),
  ("nickname", ⟨"internet.username", .str⟩),
  ("avatar", ⟨"image.avatar", .str⟩),
  ("avatarurl", ⟨"image.avatar", .str⟩),
  ("bio", ⟨"lorem.paragraph", .str⟩),
  ("email", ⟨"internet.email", .str⟩),
  ("emailaddress", ⟨"internet.email", .str⟩),
  ("phone", ⟨"phone.number", .str⟩),
  ("phonenumber", ⟨"phone.number", .str⟩),
  ("url", ⟨"internet.url", .str⟩),
  ("website", ⟨"internet.url", .str⟩),
  ("imageurl", ⟨"image.url", .str⟩),
  ("image", ⟨"image.url", .str⟩),
  ("photo", ⟨"image.url", .str⟩),
  ("address", ⟨"location.streetAddress", .str⟩),
  ("streetaddress", ⟨"location.streetAddress", .str⟩),
  ("city", ⟨"location.city", .str⟩),
  ("state", ⟨"location.state", .str⟩),
  ("zip", ⟨"location.zipCode", .str⟩),
  ("zipcode", ⟨"location.zipCode", .str⟩),
  ("postalcode", ⟨"location.zipCode", .str⟩),
  ("country", ⟨"location.country", .str⟩),
  ("latitude", ⟨"location.latitude", .num⟩),
  ("lat", ⟨"location.latitude", .num⟩),
  ("longitude", ⟨"location.longitude", .num⟩),
  ("lng", ⟨"location.longitude", .num⟩),
  ("lon", ⟨"location.longitude", .num⟩),
  ("title", ⟨"lorem.sentence", .str⟩),
  ("description", ⟨"lorem.paragraph", .str⟩),
  ("summary", ⟨"lorem.paragraph", .str⟩),
  ("slug", ⟨"lorem.slug", .str⟩),
  ("company", ⟨"company.name", .str⟩),
  ("companyname", ⟨"company.name", .str⟩),
  ("price", ⟨"commerce.price", .str⟩),
  ("amount", ⟨"commerce.price", .str⟩),
  ("currency", ⟨"finance.currencyCode", .str⟩),
  ("id", ⟨"string.uuid", .str⟩),
  ("color", ⟨"color.rgb", .str⟩),
  ("colour", ⟨"color.rgb", .str⟩),
  ("createdat", ⟨"date.past", .obj⟩),
  ("updatedat", ⟨"date.recent", .obj⟩)]

/-- `COMPATIBLE_SCHEMA_TYPES` of `smart-defaults.ts`. -/
def compatibleSchemaTypes : FOut → List String
  | .str => ["string"]
  | .num => ["number", "integer"]
  | .bool => ["boolean"]
  | .obj => ["object", "string"]

/-- Source `getSmartDefault(propertyName, schemaType?)`: normalized-name
lookup with type-compatibility gating. -/
def getSmartDefault (propertyName : String) (schemaType : Option TypeVal) :
    Option String :=
  match jsGet SMART_DEFAULTS_MAP (normalizeName propertyName) with
  | none => none
  | some entry =>
      match schemaType with
      | none => some entry.path
      | some tv =>
          let resolvedType :=
            match tv with
            | .l ts => ts.find? (fun t => t ≠ "null")
            | .s t => some t
          match resolvedType with
          | none => some entry.path
          | some rt =>
              if (compatibleSchemaTypes entry.outputType).contains rt then
                some entry.path
              else none

/-- The schema type the walker passes to `getSmartDefault` (lines 236-239):
a list type with the null kinds filtered out, a plain string type, or
nothing. -/
def smartTypeArg (s : SchemaNode) : Option TypeVal :=
  match s.tp with
  | some (.l ts) => some (.l (ts.filter (fun t => t ≠ "null")))
  | x => x

/-- Source `resolveNumericBounds` of `type-fallback.ts` (JS numbers as
integers). -/
def resolveNumericBounds (s : SchemaNode) (defaultMin defaultMax : Int) :
    Int × Int :=
  let mn := match s.minimum with | some m => max defaultMin m | none => defaultMin
  let mx := match s.maximum with | some m => min defaultMax m | none => defaultMax
  let mn :=
    match s.exclusiveMinB, s.exclusiveMinN with
    | some true, _ => match s.minimum with | some m => m + 1 | none => mn
    | _, some e => max mn (e + 1)
    | _, _ => mn
  let mx :=
    match s.exclusiveMaxB, s.exclusiveMaxN with
    | some true, _ => match s.maximum with | some m => m - 1 | none => mx
    | _, some e => min mx (e - 1)
    | _, _ => mx
  (mn, mx)

/-- Integer draw in `[lo, hi]` (model of `faker.number.int` /
`faker.number.float` with integer-modelled numbers). -/
def fIntI (lo hi : Int) (st : FakerState) : Int × FakerState :=
  let (n, st') := fNext st
  (if lo ≤ hi then lo + (n : Int) % (hi - lo + 1) else lo, st')

/-- Source `generateString` of `type-fallback.ts`: format dispatch first,
then pattern, then length-constrained, then plain words.  Each provider leaf
is the corresponding opaque `fCall`. -/
def fbString (impl : FakerImpl) (s : SchemaNode) (st : FakerState) :
    JValue × FakerState :=
  match s.format with
  | some "date-time" => fCall "date.recent.toISOString" st
  | some "date" => fCall "date.recent.toISOString.date" st
  | some "email" => fCall "internet.email" st
  | some "uri" => fCall "internet.url" st
  | some "url" => fCall "internet.url" st
  | some "uuid" => fCall "string.uuid" st
  | some "hostname" => fCall "internet.domainName" st
  | some "ipv4" => fCall "internet.ipv4" st
  | some "ipv6" => fCall "internet.ipv6" st
  | some "byte" => fCall "lorem.words.base64" st
  | _ =>
      match s.pattern with
      | some p =>
          if impl.regexOk p then fCall ("helpers.fromRegExp:" ++ p) st
          else fbStringLen s st
      | none => fbStringLen s st
where
  /-- Length-constrained / plain-word tail of `generateString` (the code
  after the pattern block; a failed `fromRegExp` warns and falls here). -/
  fbStringLen (s : SchemaNode) (st : FakerState) : JValue × FakerState :=
    if s.minLength.isSome || s.maxLength.isSome then
      let mn := s.minLength.getD 0
      let mx := s.maxLength.getD (max (mn + 20) 30)
      let (len, st1) := fInt mn mx st
      fCall ("string.alphanumeric:" ++ toString len) st1
    else
      let (c, st1) := fInt 1 5 st
      fCall ("lorem.words:" ++ toString c) st1

/-- Source `generateNumber` of `type-fallback.ts` (floats as integers; the
`Math.round(value / multipleOf) * multipleOf` adjustment is modelled as
rounding to the nearest lower multiple). -/
def fbNumber (s : SchemaNode) (st : FakerState) : JValue × FakerState :=
  let (mn, mx) := resolveNumericBounds s (-1000000000) 1000000000
  let (v, st1) := fIntI mn mx st
  match s.multipleOf with
  | some m => if 0 < m then (.num (v - v % m), st1) else (.num v, st1)
  | none => (.num v, st1)

/-- Source `generateInteger` of `type-fallback.ts`. -/
def fbInteger (s : SchemaNode) (st : FakerState) : JValue × FakerState :=
  let isInt64 := s.format = some "int64"
  let dmn : Int := if isInt64 then -9007199254740991 else -2147483648
  let dmx : Int := if isInt64 then 9007199254740991 else 2147483647
  let (mn, mx) := resolveNumericBounds s dmn dmx
  let (v, st1) := fIntI mn mx st
  match s.multipleOf with
  | some m => if 0 < m then (.num (v - v % m), st1) else (.num v, st1)
  | none => (.num v, st1)

mutual

/-- Source `generateFromTypeFallback` of `type-fallback.ts`: enum pick
first, then dispatch on the resolved type, with shape inference in the
default branch.  The returned provenance is the aliasing information of the
value: an enum pick returns the enum member itself by reference. -/
def fbValue : Nat → Env → SchemaNode → FakerState →
    Except GenErr (JValue × FakerState × Option Prov)
  | 0, _, _, _ => .error .noFuel
  | f + 1, env, s, st =>
  match s.enum? with
  | some es =>
      if es.length > 0 then
        let (i, st1) := fInt 0 (es.length - 1) st
        .ok (es.getD i .null, st1, s.enumSrc.map (fun id => .enumOf id i))
      else fbTyped f env s st
  | none => fbTyped f env s st

/-- The type dispatch of `generateFromTypeFallback` (after the enum
check). -/
def fbTyped : Nat → Env → SchemaNode → FakerState →
    Except GenErr (JValue × FakerState × Option Prov)
  | 0, _, _, _ => .error .noFuel
  | f + 1, env, s, st =>
  let tpe : Option String :=
    match s.tp with
    | some (.s t) => some t
    | some (.l ts) => some ((ts.find? (fun t => t ≠ "null")).getD "null")
    | none => none
  match tpe with
  | some "string" => .ok (let (v, st1) := fbString env.impl s st; (v, st1, none))
  | some "number" => .ok (let (v, st1) := fbNumber s st; (v, st1, none))
  | some "integer" => .ok (let (v, st1) := fbInteger s st; (v, st1, none))
  | some "boolean" => .ok (let (b, st1) := fBool st; (.bool b, st1, none))
  | some "array" => fbArray f env s st
  | some "object" => fbObject f env s st
  | some "null" => .ok (.null, st, none)
  | _ =>
      if s.properties.isSome then fbObject f env s st
      else if s.items.isSome then fbArray f env s st
      else .ok (let (v, st1) := fCall "lorem.word" st; (v, st1, none))

/-- Source `generateArray` of `type-fallback.ts` (0-3 items by default). -/
def fbArray : Nat → Env → SchemaNode → FakerState →
    Except GenErr (JValue × FakerState × Option Prov)
  | 0, _, _, _ => .error .noFuel
  | f + 1, env, s, st =>
  let mn := s.minItems.getD 0
  let mx := s.maxItems.getD 3
  let (count, st1) := fInt mn mx st
  match fbItems f env s.items count st1 with
  | .error e => .error e
  | .ok (vs, st2) => .ok (.arr vs, st2, none)

/-- The item loop of the fallback `generateArray`. -/
def fbItems : Nat → Env → Option Nat → Nat → FakerState →
    Except GenErr (List JValue × FakerState)
  | 0, _, _, _, _ => .error .noFuel
  | _ + 1, _, _, 0, st => .ok ([], st)
  | f + 1, env, itemId, k + 1, st =>
      let one : Except GenErr (JValue × FakerState) :=
        match itemId with
        | some id =>
            match fbValue f env (getNode env id) st with
            | .error e => .error e
            | .ok (v, st1, _) => .ok (v, st1)
        | none => .ok (fCall "lorem.word" st)
      match one with
      | .error e => .error e
      | .ok (v, st1) =>
          match fbItems f env itemId k st1 with
          | .error e => .error e
          | .ok (vs, st2) => .ok (v :: vs, st2)

/-- Source `generateObject` of `type-fallback.ts`: every declared property
is generated (no omission, no required logic at the fallback level). -/
def fbObject : Nat → Env → SchemaNode → FakerState →
    Except GenErr (JValue × FakerState × Option Prov)
  | 0, _, _, _ => .error .noFuel
  | f + 1, env, s, st =>
  match s.properties with
  | none => .ok (.obj [], st, none)
  | some props =>
      match fbProps f env props st with
      | .error e => .error e
      | .ok (fields, st1) => .ok (.obj fields, st1, none)

/-- The property loop of the fallback `generateObject`. -/
def fbProps : Nat → Env → List (String × Nat) → FakerState →
    Except GenErr (List (String × JValue) × FakerState)
  | 0, _, _, _ => .error .noFuel
  | _ + 1, _, [], st => .ok ([], st)
  | f + 1, env, (key, id) :: rest, st =>
      match fbValue f env (getNode env id) st with
      | .error e => .error e
      | .ok (v, st1, _) =>
          match fbProps f env rest st1 with
          | .error e => .error e
          | .ok (fields, st2) => .ok ((key, v) :: fields, st2)

end

/-- Accumulator of `mergeAllOf`: the separately merged `type`, `properties`
and `required`, plus the record of all other copied keywords. -/
structure MergeAcc where
  mty : Option String := none
  mprops : List (String × Nat) := []
  mreq : List String := []
  other : SchemaNode := {}

/-- The `required` union loop of `mergeAllOf`: append each name not already
present (duplicate-free, order-preserving). -/
def unionReq (acc : List String) (req : List String) : List String :=
  req.foldl (fun a r => if a.contains r then a else a ++ [r]) acc

/-- The `Object.entries` copy loop of `mergeAllOf` for every keyword other
than `type` / `properties` / `required`: a keyword present on a later
sub-schema overwrites the earlier value.  The `…Src` provenance fields
travel with their values because the source copies references. -/
def copyOtherKeys (acc s : SchemaNode) : SchemaNode :=
  { acc with
    nullable := if s.nullable.isSome then s.nullable else acc.nullable,
    example? := if s.example?.isSome then s.example? else acc.example?,
    exampleSrc := if s.example?.isSome then s.exampleSrc else acc.exampleSrc,
    default? := if s.default?.isSome then s.default? else acc.default?,
    defaultSrc := if s.default?.isSome then s.defaultSrc else acc.defaultSrc,
    xFakerMethod := if s.xFakerMethod.isSome then s.xFakerMethod else acc.xFakerMethod,
    allOf := if s.allOf.isSome then s.allOf else acc.allOf,
    oneOf := if s.oneOf.isSome then s.oneOf else acc.oneOf,
    anyOf := if s.anyOf.isSome then s.anyOf else acc.anyOf,
    discriminator := if s.discriminator.isSome then s.discriminator else acc.discriminator,
    refStr := if s.refStr.isSome then s.refStr else acc.refStr,
    items := if s.items.isSome then s.items else acc.items,
    minItems := if s.minItems.isSome then s.minItems else acc.minItems,
    maxItems := if s.maxItems.isSome then s.maxItems else acc.maxItems,
    enum? := if s.enum?.isSome then s.enum? else acc.enum?,
    enumSrc := if s.enum?.isSome then s.enumSrc else acc.enumSrc,
    const? := if s.const?.isSome then s.const? else acc.const?,
    format := if s.format.isSome then s.format else acc.format,
    minimum := if s.minimum.isSome then s.minimum else acc.minimum,
    maximum := if s.maximum.isSome then s.maximum else acc.maximum,
    exclusiveMinB := if s.exclusiveMinB.isSome then s.exclusiveMinB else acc.exclusiveMinB,
    exclusiveMinN := if s.exclusiveMinN.isSome then s.exclusiveMinN else acc.exclusiveMinN,
    exclusiveMaxB := if s.exclusiveMaxB.isSome then s.exclusiveMaxB else acc.exclusiveMaxB,
    exclusiveMaxN := if s.exclusiveMaxN.isSome then s.exclusiveMaxN else acc.exclusiveMaxN,
    multipleOf := if s.multipleOf.isSome then s.multipleOf else acc.multipleOf,
    minLength := if s.minLength.isSome then s.minLength else acc.minLength,
    maxLength := if s.maxLength.isSome then s.maxLength else acc.maxLength,
    pattern := if s.pattern.isSome then s.pattern else acc.pattern }

/-- The error message of the `type` conflict check in `mergeAllOf`. -/
def conflictMsg (t1 t2 : String) : String :=
  "openapi-mocks: allOf has conflicting types: \"" ++ t1 ++ "\" vs \"" ++ t2 ++ "\""

/-- The per-sub-schema fold of `mergeAllOf`. -/
def mergeGo (env : Env) : List Nat → MergeAcc → Except String MergeAcc
  | [], acc => .ok acc
  | id :: rest, acc =>
      let s := getNode env id
      let subType : Option String :=
        match s.tp with
        | some (.s t) => some t
        | _ => none
      let tyStep : Except String (Option String) :=
        match subType with
        | none => .ok acc.mty
        | some t =>
            match acc.mty with
            | some t' => if t' ≠ t then .error (conflictMsg t' t) else .ok (some t)
            | none => .ok (some t)
      match tyStep with
      | .error e => .error e
      | .ok mty =>
          let mprops :=
            match s.properties with
            | some props => props.foldl (fun a kv => jsSet a kv.1 kv.2) acc.mprops
            | none => acc.mprops
          let mreq :=
            match s.required with
            | some req => unionReq acc.mreq req
            | none => acc.mreq
          mergeGo env rest ⟨mty, mprops, mreq, copyOtherKeys acc.other s⟩

/-- Source `mergeAllOf` of `schema-walker.ts`: deep-merge a list of
sub-schemas (given by node id), validating type compatibility, merging
`properties` (later wins) and unioning `required`; `type`, `properties` and
`required` are only set on the merged record when non-empty. -/
def mergeAllOf (env : Env) (ids : List Nat) : Except String SchemaNode :=
  match mergeGo env ids {} with
  | .error e => .error e
  | .ok acc =>
      .ok { acc.other with
            tp := acc.mty.map .s,
            properties := if acc.mprops.isEmpty then none else some acc.mprops,
            required := if acc.mreq.isEmpty then none else some acc.mreq }

/-- The `lookupKey` selection of `generateArray` (lines 480-484): the
property name when it has an `arrayLengths` entry, else the override path
when it has one, else nothing.  A JS falsy (empty) name or path never
matches. -/
def lookupALKey (als : List (String × (Nat × Nat))) (pName : Option String)
    (ovPath : String) : Option String :=
  let byPath : Option String :=
    if ovPath ≠ "" && jsHas als ovPath then some ovPath else none
  match pName with
  | some n => if n ≠ "" && jsHas als n then some n else byPath
  | none => byPath

/-- The effective array-length bounds of `generateArray` (lines 471-499):
schema `minItems`/`maxItems` as baseline (else 0-5), intersected with a
matching `arrayLengths` override, an exact override pinning the count, and
the final `min ≤ max` clamp. -/
def effBounds (s : SchemaNode) (pName : Option String) (ovPath : String)
    (als : List (String × (Nat × Nat))) : Nat × Nat :=
  let mn := s.minItems.getD 0
  let mx := s.maxItems.getD 5
  let (mn, mx) :=
    match lookupALKey als pName ovPath with
    | some k =>
        match jsGet als k with
        | some (omn, omx) =>
            if omn = omx then (omn, omx) else (max mn omn, min mx omx)
        | none => (mn, mx)
    | none => (mn, mx)
  if mn > mx then (mn, mn) else (mn, mx)

/-- The wildcard base paths of `generateArray` (lines 508-510): the current
override path, and the current property name when distinct from it. -/
def wildcardBases (ovPath : String) (pName : Option String) : List String :=
  (if ovPath ≠ "" then [ovPath ++ "[*]."] else []) ++
    (match pName with
     | some n => if n ≠ "" && n ≠ ovPath then [n ++ "[*]."] else []
     | none => [])

/-- The wildcard de-scoping of `generateArray` (lines 512-535): every
`arrayLengths` key starting with a wildcard base is rewritten with that
base stripped; non-matching keys pass through unchanged; when nothing
matched the map is passed through as-is. -/
def descopeALs (als : List (String × (Nat × Nat))) (ovPath : String)
    (pName : Option String) : List (String × (Nat × Nat)) :=
  let bases := wildcardBases ovPath pName
  let scan :=
    als.foldl
      (fun (acc : List (String × (Nat × Nat)) × List String) kv =>
        match bases.find? (fun p => strStarts kv.1 p) with
        | some p => (jsSet acc.1 (strDrop kv.1 (strLen p)) kv.2, acc.2 ++ [kv.1])
        | none => acc)
      ([], [])
  if scan.2.isEmpty then als
  else
    let remaining := als.filter (fun kv => !(scan.2.contains kv.1))
    scan.1.foldl (fun a kv => jsSet a kv.1 kv.2) remaining

/-- Source `generateMinimalStub`: null for nullable schemas, the structural
empty value for simple resolved types, null as last resort.  (The source
destructures `faker` from the options but never uses it.) -/
def generateMinimalStub (s : SchemaNode) : JValue :=
  if isNullable s then .null
  else
    match resolveType s with
    | some "string" => .str ""
    | some "number" => .num 0
    | some "integer" => .num 0
    | some "boolean" => .bool false
    | some "array" => .arr []
    | some "object" => .obj []
    | _ => .null

/-- JS `String(x)` conversion as used for discriminator enum/const values
(which are strings in practice; containers are not exercised by the
engine's callers). -/
def jstr : JValue → String
  | .str s => s
  | .num n => toString n
  | .bool true => "true"
  | .bool false => "false"
  | .null => "null"
  | .arr _ => ""
  | .obj _ => "[object Object]"

/-- Model of `faker.helpers.shuffle` (a seeded permutation: repeated seeded
draw-and-remove; the provider's exact shuffle is opaque, any seeded
permutation is a faithful model). -/
def fShuffleAux : Nat → List Nat → FakerState → List Nat × FakerState
  | 0, xs, st => (xs, st)
  | _ + 1, [], st => ([], st)
  | n + 1, xs, st =>
      let (i, st1) := fInt 0 (xs.length - 1) st
      let x := xs.getD i 0
      let rest := xs.take i ++ xs.drop (i + 1)
      let (r, st2) := fShuffleAux n rest st1
      (x :: r, st2)

/-- Seeded shuffle of a list of node ids. -/
def fShuffle (xs : List Nat) (st : FakerState) : List Nat × FakerState :=
  fShuffleAux xs.length xs st

/-- The post-loop direct-override scan of `generateObject` (lines 442-451):
every override key that extends the current path by exactly one segment is
set on the result, in override-map order. -/
def applyDirectOverrides (fields : List (String × JValue))
    (overrides : List (String × JValue)) (ovPath : String) :
    List (String × JValue) :=
  let pre := if ovPath = "" then "" else ovPath ++ "."
  overrides.foldl
    (fun acc kv =>
      if strStarts kv.1 pre && !((strDrop kv.1 (strLen pre)).toList.contains '.') then
        jsSet acc (strDrop kv.1 (strLen pre)) kv.2
      else acc)
    fields

/-- A present, non-empty composition list (`allOf && allOf.length > 0`). -/
def nonEmptyL (o : Option (List Nat)) : Option (List Nat) :=
  match o with
  | some l => if l.isEmpty then none else some l
  | none => none

mutual

/-- Source `generateValueForSchema`: the full priority chain — override
lookup, nullability coin-flip, example/default, `x-faker-method`, smart
default (with its invocation failure absorbed), `allOf`/`oneOf`/`anyOf`
composition, and type-based structural generation. -/
def genValue : Nat → Env → SchemaNode → GenOpts → FakerState →
    Except GenErr GenOut
  | 0, _, _, _, _ => .error .noFuel
  | f + 1, env, schema, opts, st =>
  let ovHit : Option JValue :=
    if opts.overridePath = "" then none
    else jsGet opts.overrides opts.overridePath
  match ovHit with
  | some v => .ok ⟨v, st, none, []⟩
  | none =>
  let nullDraw : Bool × FakerState :=
    if isNullable schema then fBool st else (false, st)
  match nullDraw with
  | (isNull, st1) =>
  if isNull then .ok ⟨.null, st1, none, []⟩ else
  let exHit : Option (JValue × Option Prov) :=
    if opts.ignoreExamples then none
    else
      match schema.example? with
      | some v => some (v, schema.exampleSrc.map .exampleOf)
      | none =>
          match schema.default? with
          | some v => some (v, schema.defaultSrc.map .defaultOf)
          | none => none
  match exHit with
  | some (v, pr) => .ok ⟨v, st1, pr, []⟩
  | none =>
  match schema.xFakerMethod with
  | some p =>
      match callFakerMethod env.impl p st1 with
      | .error e => .error (.thrown e)
      | .ok (v, st2) => .ok ⟨v, st2, none, []⟩
  | none =>
  let smartRes : Option (JValue × FakerState) :=
    match opts.propertyName with
    | some n =>
        if n = "" then none
        else
          match getSmartDefault n (smartTypeArg schema) with
          | some sp =>
              match callFakerMethod env.impl sp st1 with
              | .ok r => some r
              | .error _ => none
          | none => none
    | none => none
  match smartRes with
  | some (v, st2) => .ok ⟨v, st2, none, []⟩
  | none =>
  match nonEmptyL schema.allOf with
  | some subs =>
      match mergeAllOf env subs with
      | .error e => .error (.thrown e)
      | .ok merged => genValue f env merged opts st1
  | none =>
  match nonEmptyL schema.oneOf with
  | some subs => genOneOf f env subs schema opts st1
  | none =>
  match nonEmptyL schema.anyOf with
  | some subs => genAnyOf f env subs opts st1
  | none =>
  match resolveType schema with
  | some "object" =>
      match genObject f env schema opts opts.overridePath st1 with
      | .error e => .error e
      | .ok (fields, st2, ms) => .ok ⟨.obj fields, st2, none, ms⟩
  | some "array" =>
      match genArray f env schema opts opts.overridePath opts.propertyName st1 with
      | .error e => .error e
      | .ok (vs, st2, ms) => .ok ⟨.arr vs, st2, none, ms⟩
  | _ =>
      match fbValue f env schema st1 with
      | .error e => .error e
      | .ok (v, st2, pr) => .ok ⟨v, st2, pr, []⟩

/-- Source `generateObject`: no `properties` key yields the empty object
immediately (before any override is applied); otherwise the property loop
followed by the direct-override scan. -/
def genObject : Nat → Env → SchemaNode → GenOpts → String → FakerState →
    Except GenErr (List (String × JValue) × FakerState × List Mut)
  | 0, _, _, _, _, _ => .error .noFuel
  | f + 1, env, schema, opts, ovPath, st =>
  match schema.properties with
  | none => .ok ([], st, [])
  | some props =>
      match genProps f env props (schema.required.getD []) opts ovPath [] st with
      | .error e => .error e
      | .ok (fields, st1, ms) =>
          .ok (applyDirectOverrides fields opts.overrides ovPath, st1, ms)

/-- The property loop of `generateObject`: optional properties without a
matching override are omitted on a seeded coin-flip; the circular-reference
guard stubs (required) or omits (optional) a visited child at the depth
limit; otherwise recurse with depth+1, the child added to the visited set,
and the child's name and path. -/
def genProps : Nat → Env → List (String × Nat) → List String → GenOpts →
    String → List (String × JValue) → FakerState →
    Except GenErr (List (String × JValue) × FakerState × List Mut)
  | 0, _, _, _, _, _, _, _ => .error .noFuel
  | _ + 1, _, [], _, _, _, acc, st => .ok (acc, st, [])
  | f + 1, env, (key, childId) :: rest, required, opts, ovPath, acc, st =>
      let isRequired := required.contains key
      let propPath := if ovPath = "" then key else ovPath ++ "." ++ key
      let hasOverride := opts.overrides.any
        (fun kv => kv.1 = propPath || strStarts kv.1 (propPath ++ "."))
      let omitDraw : Bool × FakerState :=
        if !isRequired && !hasOverride then fBool st else (false, st)
      match omitDraw with
      | (omitNow, st1) =>
      if omitNow then genProps f env rest required opts ovPath acc st1
      else if opts.visited.contains childId && opts.depth ≥ opts.maxDepth then
        if isRequired then
          genProps f env rest required opts ovPath
            (jsSet acc key (generateMinimalStub (getNode env childId))) st1
        else
          genProps f env rest required opts ovPath acc st1
      else
        let newVisited :=
          if opts.visited.contains childId then opts.visited
          else childId :: opts.visited
        match genValue f env (getNode env childId)
            { opts with propertyName := some key, overridePath := propPath,
                        depth := opts.depth + 1, visited := newVisited } st1 with
        | .error e => .error e
        | .ok out =>
            match genProps f env rest required opts ovPath
                (jsSet acc key out.val) out.st with
            | .error e => .error e
            | .ok (fields, st2, ms) => .ok (fields, st2, out.muts ++ ms)

/-- Source `generateArray`: effective bounds, seeded count, wildcard
de-scoping of `arrayLengths`, then per-index item generation with the
property name cleared and the override path extended by the index.  Note
that neither the depth counter nor the visited set changes for items. -/
def genArray : Nat → Env → SchemaNode → GenOpts → String → Option String →
    FakerState → Except GenErr (List JValue × FakerState × List Mut)
  | 0, _, _, _, _, _, _ => .error .noFuel
  | f + 1, env, schema, opts, ovPath, pName, st =>
  let bounds := effBounds schema pName ovPath opts.arrayLengths
  match fInt bounds.1 bounds.2 st with
  | (count, st1) =>
  let itemALs := descopeALs opts.arrayLengths ovPath pName
  genItems f env schema.items
    { opts with arrayLengths := itemALs, propertyName := none }
    ovPath 0 count st1

/-- The item loop of `generateArray` (`i` is the running index, `count` the
remaining number of items). -/
def genItems : Nat → Env → Option Nat → GenOpts → String → Nat → Nat →
    FakerState → Except GenErr (List JValue × FakerState × List Mut)
  | 0, _, _, _, _, _, _, _ => .error .noFuel
  | _ + 1, _, _, _, _, _, 0, st => .ok ([], st, [])
  | f + 1, env, itemId, opts, ovPath, i, k + 1, st =>
      let itemPath := if ovPath = "" then toString i else ovPath ++ "." ++ toString i
      match itemId with
      | some id =>
          match genValue f env (getNode env id)
              { opts with overridePath := itemPath } st with
          | .error e => .error e
          | .ok out =>
              match genItems f env itemId opts ovPath (i + 1) k out.st with
              | .error e => .error e
              | .ok (vs, st2, ms) => .ok (out.val :: vs, st2, out.muts ++ ms)
      | none =>
          match fCall "lorem.word" st with
          | (v, st1) =>
          match genItems f env itemId opts ovPath (i + 1) k st1 with
          | .error e => .error e
          | .ok (vs, st2, ms) => .ok (v :: vs, st2, ms)

/-- Source `generateOneOf`: discriminator-mapping-guided selection (seeded
draw over mapping entries, sub-schema matched by `$ref`), else a seeded
draw over the raw list with the discriminator value taken from the chosen
branch's own `enum`/`const`; then generation of the chosen branch and the
in-place discriminator write. -/
def genOneOf : Nat → Env → List Nat → SchemaNode → GenOpts → FakerState →
    Except GenErr GenOut
  | 0, _, _, _, _, _ => .error .noFuel
  | f + 1, env, subIds, parentSchema, opts, st =>
  let disc := parentSchema.discriminator
  let pn? : Option String :=
    match disc with
    | some d =>
        match d.propertyName with
        | some pn => if pn = "" then none else some pn
        | none => none
    | none => none
  let mapping? : Option (List (String × String)) :=
    match pn?, disc with
    | some _, some d => d.mapping
    | _, _ => none
  match mapping? with
  | some mapping =>
      match mapping with
      | [] =>
          -- JS crashes here: `mappingEntries[faker.number.int(0, -1)]` is
          -- undefined and the destructuring throws a TypeError.
          .error (.thrown "TypeError: discriminator mapping is empty")
      | _ :: _ =>
          match fInt 0 (mapping.length - 1) st with
          | (idx, st1) =>
          let selectedRef := (mapping.getD idx ("", "")).2
          let dv : Option String :=
            (mapping.find? (fun kv => kv.2 = selectedRef)).map (fun kv => kv.1)
          let matched : Option Nat :=
            subIds.find? (fun id => (getNode env id).refStr = some selectedRef)
          match matched with
          | some selId => genOneOfFinish f env selId pn? dv opts st1
          | none =>
              match fInt 0 (subIds.length - 1) st1 with
              | (j, st2) => genOneOfFinish f env (subIds.getD j 0) pn? dv opts st2
  | none =>
      match fInt 0 (subIds.length - 1) st with
      | (j, st1) =>
      let selId := subIds.getD j 0
      let dv : Option String :=
        match pn? with
        | some pn =>
            match (getNode env selId).properties with
            | some props =>
                match jsGet props pn with
                | some dpId =>
                    let dp := getNode env dpId
                    let fromEnum : Option String :=
                      match dp.enum? with
                      | some (e0 :: _) => some (jstr e0)
                      | _ => none
                    match dp.const? with
                    | some c => some (jstr c)
                    | none => fromEnum
                | none => none
            | none => none
        | none => none
      genOneOfFinish f env selId pn? dv opts st1

/-- The tail of `generateOneOf` (lines 341-348): generate the selected
sub-schema, then — when a discriminator property name and value were
resolved and the generated value is an object — write the discriminator
property into the generated value *in place*.  When that value was returned
by reference from the schema tree (its provenance is known), the write is a
mutation of the caller's schema tree and is recorded in `muts`.  (For an
aliased array value JS attaches a non-index property, which `JValue.arr`
cannot carry; the mutation is still recorded.) -/
def genOneOfFinish : Nat → Env → Nat → Option String → Option String →
    GenOpts → FakerState → Except GenErr GenOut
  | 0, _, _, _, _, _, _ => .error .noFuel
  | f + 1, env, selId, pn?, dv?, opts, st =>
  match genValue f env (getNode env selId) opts st with
  | .error e => .error e
  | .ok out =>
      match pn?, dv? with
      | some pn, some dv =>
          match out.val with
          | .obj fields =>
              .ok ⟨.obj (jsSet fields pn (.str dv)), out.st, out.prov,
                   out.muts ++
                     (match out.prov with
                      | some pr => [⟨pr, pn, .str dv⟩]
                      | none => [])⟩
          | .arr xs =>
              .ok ⟨.arr xs, out.st, out.prov,
                   out.muts ++
                     (match out.prov with
                      | some pr => [⟨pr, pn, .str dv⟩]
                      | none => [])⟩
          | v => .ok ⟨v, out.st, out.prov, out.muts⟩
      | _, _ => .ok out

/-- Source `generateAnyOf`: a seeded count between 1 and the number of
sub-schemas, a seeded shuffle, the front `count` taken; a single selection
generated directly, several merged via `mergeAllOf` first. -/
def genAnyOf : Nat → Env → List Nat → GenOpts → FakerState →
    Except GenErr GenOut
  | 0, _, _, _, _ => .error .noFuel
  | f + 1, env, subIds, opts, st =>
  match fInt 1 subIds.length st with
  | (count, st1) =>
  match fShuffle subIds st1 with
  | (shuffled, st2) =>
  let selected := shuffled.take count
  if selected.length = 1 then
    genValue f env (getNode env (selected.getD 0 0)) opts st2
  else
    match mergeAllOf env selected with
    | .error e => .error (.thrown e)
    | .ok merged => genValue f env merged opts st2

end

/-- JS `path.split('.')`, segment by segment (splits at every dot, keeping
empty segments; always returns at least one segment). -/
def jsSplitAux : List Char → List Char → List String
  | [], acc => [String.mk acc.reverse]
  | c :: cs, acc =>
      if c = '.' then String.mk acc.reverse :: jsSplitAux cs []
      else jsSplitAux cs (c :: acc)

/-- JS `path.split('.')`. -/
def jsSplit (path : String) : List String :=
  jsSplitAux path.toList []

/-- Parse a decimal array-index segment. -/
def parseIndex? (s : String) : Option Nat :=
  if s ≠ "" && s.toList.all (fun c => c.isDigit) then
    some (s.toList.foldl (fun n c => n * 10 + (c.toNat - 48)) 0)
  else none

/-- Observe a generated value at a dot-notation path (dot segments walk
object keys and numeric array indices); used to state where an override
surfaces inside the output. -/
def atParts : JValue → List String → Option JValue
  | v, [] => some v
  | .obj fields, p :: rest =>
      match jsGet fields p with
      | some c => atParts c rest
      | none => none
  | .arr xs, p :: rest =>
      match parseIndex? p with
      | some i =>
          match xs.get? i with
          | some c => atParts c rest
          | none => none
      | none => none
  | _, _ => none

/-- Observe a generated value at a dot-notation path. -/
def JValue.atPath (v : JValue) (path : String) : Option JValue :=
  atParts v (jsSplit path)

/-- Primitive JS values for the path-override module. -/
inductive DPrim where
  | null : DPrim
  | bool (b : Bool) : DPrim
  | num (n : Int) : DPrim
  | str (s : String) : DPrim
deriving DecidableEq, Repr

/-- JS values as seen by the path-override module (`setByPath`): a
non-container primitive, or a container.  A JS array is a string-keyed
object whose index properties are numeric-string keys — `part in target`,
property read and property write used by `setByPath` are exactly the map
operations on both objects and arrays (a sparse hole is an absent key), so
one container representation with an `isArr` tag is the faithful model.
(The JS `in` operator additionally sees prototype-chain names such as
`toString` or array `length`; paths through such reserved names are outside
the model.) -/
inductive DVal where
  | prim (p : DPrim) : DVal
  | cont (isArr : Bool) (fields : List (String × DVal)) : DVal

/-- Does a path segment look like a numeric index (`/^\d+$/`)? -/
def isIndexSeg (s : String) : Bool :=
  s ≠ "" && s.toList.all (fun c => c.isDigit)

/-- The walk of source `setByPath` (part_000 lines 34-63), written as
recursion over the split path: for each intermediate segment, a missing key
gets a fresh container (array when the next segment is numeric), an
existing container is traversed, and an existing primitive stops the walk
with the current object returned unchanged; the final segment is set
unconditionally.  In-place mutation is modelled by rebuilding along the
walk, so a container created before a later stop would persist — exactly as
in the source. -/
def setWalk : DVal → List String → DVal → DVal
  | cur, [], _ => cur
  | cur, [last], v =>
      match cur with
      | .cont a fields => .cont a (jsSet fields last v)
      | p => p
  | cur, part :: rest, v =>
      match cur with
      | .cont a fields =>
          match jsGet fields part with
          | none =>
              let fresh : DVal := .cont (isIndexSeg (rest.headD "")) []
              .cont a (jsSet fields part (setWalk fresh rest v))
          | some (.cont b cf) =>
              .cont a (jsSet fields part (setWalk (.cont b cf) rest v))
          | some (.prim _) => cur
      | p => p

/-- Source `setByPath(obj, path, value)`. -/
def setByPath (obj : DVal) (path : String) (v : DVal) : DVal :=
  setWalk obj (jsSplit path) v

/-- Does the `setByPath` walk stop on an existing non-container primitive at
an intermediate segment?  Mirrors the stop conditions of the walk: a
primitive found at an intermediate key (a missing key leads to fresh empty
containers, inside which every further key is missing, so no stop can occur
below a created container). -/
def walkBlocked : DVal → List String → Bool
  | _, [] => false
  | _, [_] => false
  | cur, part :: rest =>
      match cur with
      | .cont _ fields =>
          match jsGet fields part with
          | none => false
          | some (.cont b cf) => walkBlocked (.cont b cf) rest
          | some (.prim _) => true
      | .prim _ => true

/-- Observe a `DVal` along split path segments (own-property reads). -/
def dAtParts : DVal → List String → Option DVal
  | v, [] => some v
  | .cont _ fields, p :: rest =>
      match jsGet fields p with
      | some c => dAtParts c rest
      | none => none
  | .prim _, _ :: _ => none

/-- A fresh provider state seeded with `k` (`faker.seed(k)` on a fresh
instance). -/
def mkFaker (k : Nat) : FakerState := ⟨k⟩

/-- A provider on which every method path resolves. -/
def implAll : FakerImpl := ⟨fun _ => true, fun _ => true⟩

/-- A provider on which no method path resolves. -/
def implNone : FakerImpl := ⟨fun _ => false, fun _ => true⟩

/-- An environment with an empty schema heap (for schemas without
sub-schema references). -/
def envTriv : Env := ⟨[], implAll⟩

/-- The string `needle` occurs verbatim inside `hay` (an error message
"names" a value). -/
def Mentions (needle hay : String) : Prop :=
  ∃ l r, hay = l ++ needle ++ r

/-- Observe the `required` of a successful merge. -/
def mergedReq? : Except String SchemaNode → Option (List String)
  | .ok m => m.required
  | .error _ => none

/-- Observe the `properties` of a successful merge. -/
def mergedProps? : Except String SchemaNode → Option (List (String × Nat))
  | .ok m => m.properties
  | .error _ => none

/-- Observe the error message of a failed merge. -/
def mergeErr? : Except String SchemaNode → Option String
  | .ok _ => none
  | .error e => some e

/-- Observe the generated value of a successful engine run. -/
def valOf : Except GenErr GenOut → Option JValue
  | .ok out => some out.val
  | .error _ => none

/-- Observe the schema-tree writes of a successful engine run. -/
def mutsOf : Except GenErr GenOut → Option (List Mut)
  | .ok out => some out.muts
  | .error _ => none

/-- Length of an observed array value. -/
def arrLen? : Option JValue → Option Nat
  | some (.arr xs) => some xs.length
  | _ => none

/-- Interpret a recorded schema-tree write as the heap update it performs:
the store cell named by the provenance gets the property written (objects
gain or update the key; for other shapes the cell is unchanged in the
model). -/
def applyMut (doc : List SchemaNode) (m : Mut) : List SchemaNode :=
  let setIn : JValue → JValue := fun v =>
    match v with
    | .obj fields => .obj (jsSet fields m.key m.val)
    | other => other
  match m.target with
  | .exampleOf id =>
      doc.set id { doc.getD id emptySchema with
                   example? := (doc.getD id emptySchema).example?.map setIn }
  | .defaultOf id =>
      doc.set id { doc.getD id emptySchema with
                   default? := (doc.getD id emptySchema).default?.map setIn }
  | .enumOf id i =>
      doc.set id { doc.getD id emptySchema with
                   enum? := (doc.getD id emptySchema).enum?.map
                     (fun es => es.set i (setIn (es.getD i .null))) }

/-- No node of the schema heap carries a `oneOf`. -/
def noOneOfDoc (env : Env) : Prop :=
  ∀ n ∈ env.doc, n.oneOf = none

/-- Claim C1 witness schema: a plain string schema. -/
def strSchema : SchemaNode := { tp := some (.s "string") }

/-- Claim C6 document: two object sub-schemas with distinct properties
(ids 0, 1 with property nodes 2, 3), two conflicting primitive sub-schemas
(ids 4, 5), and two object sub-schemas sharing a property name (ids 6, 7). -/
def docC6 : List SchemaNode := [
  { tp := some (.s "object"), properties := some [("a", 2)], required := some ["a"] },
  { tp := some (.s "object"), properties := some [("b", 3)], required := some ["b"] },
  { tp := some (.s "string") },
  { tp := some (.s "integer") },
  { tp := some (.s "string") },
  { tp := some (.s "integer") },
  { tp := some (.s "object"), properties := some [("p", 2)] },
  { tp := some (.s "object"), properties := some [("p", 3)] }]

/-- Claim C6 environment. -/
def envC6 : Env := ⟨docC6, implAll⟩

/-- Claim C2 counterexample schema: `type: object` with no `properties`
key at all. -/
def schC2 : SchemaNode := { tp := some (.s "object") }

/-- Claim C2 counterexample options: one override at path `a`. -/
def optsC2 : GenOpts := { overrides := [("a", .num 1)] }

/-- Claim C3 counterexample schema: an object schema whose `required`
names a property that `properties` does not declare. -/
def schC3 : SchemaNode :=
  { tp := some (.s "object"), properties := some [], required := some ["a"] }

/-- Claim C4 document: a single array schema whose `items` is the node
itself (a self-referential schema through array `items`), pinned to
exactly one item per level. -/
def docC4 : List SchemaNode :=
  [{ tp := some (.s "array"), items := some 0,
     minItems := some 1, maxItems := some 1 }]

/-- Claim C4 environment. -/
def envC4 : Env := ⟨docC4, implAll⟩

/-- Claim C5 provider: every path resolves except `internet.email` (the
smart-default target for the property name `email`). -/
def implC5 : FakerImpl := ⟨fun p => p ≠ "internet.email", fun _ => true⟩

/-- Claim C5 environment. -/
def envC5 : Env := ⟨[], implC5⟩

/-- Claim C5 counterexample options: the current property name is `email`,
so the smart default resolves to the non-invocable `internet.email`. -/
def optsC5 : GenOpts := { propertyName := some "email" }

/-- An environment on which no provider path resolves (for the
`x-faker-method` propagation witness). -/
def envNone : Env := ⟨[], implNone⟩

/-- Claim C7 document: the array item schema. -/
def docC7 : List SchemaNode := [{ tp := some (.s "string") }]

/-- Claim C7 environment. -/
def envC7 : Env := ⟨docC7, implAll⟩

/-- Claim C7 witness schema: an array schema with `minItems: 2`,
`maxItems: 4`. -/
def schC7 : SchemaNode :=
  { tp := some (.s "array"), items := some 0,
    minItems := some 2, maxItems := some 4 }

/-- Claim C8 document: `users` (an array of objects each with a required
`addresses` array of strings).  Node 0 is the root object, 1 the `users`
array, 2 the user object, 3 the `addresses` array, 4 the address. -/
def docC8 : List SchemaNode := [
  { tp := some (.s "object"), properties := some [("users", 1)],
    required := some ["users"] },
  { tp := some (.s "array"), items := some 2 },
  { tp := some (.s "object"), properties := some [("addresses", 3)],
    required := some ["addresses"] },
  { tp := some (.s "array"), items := some 4 },
  { tp := some (.s "string") }]

/-- Claim C8 environment. -/
def envC8 : Env := ⟨docC8, implAll⟩

/-- Claim C8 options: the wildcard array-length scenario of the spec. -/
def optsC8 : GenOpts :=
  { arrayLengths := [("users", (2, 2)), ("users[*].addresses", (1, 1))] }

/-- Claim C9 document: node 0 is a `oneOf` with a discriminator property
name (no mapping), node 1 the single branch carrying an object `example`
(owned by node 1 itself) and a `kind` property, node 2 the `kind` property
schema with a `const`. -/
def docC9 : List SchemaNode := [
  { oneOf := some [1], discriminator := some ⟨some "kind", none⟩ },
  { example? := some (.obj [("x", .num 1)]), exampleSrc := some 1,
    properties := some [("kind", 2)] },
  { const? := some (.str "cat") }]

/-- Claim C9 environment. -/
def envC9 : Env := ⟨docC9, implAll⟩

/-- The schema-tree write claim C9's counterexample run performs. -/
def mutC9 : Mut := ⟨.exampleOf 1, "kind", .str "cat"⟩

/-- Claim C10 witness object fields: `a` holds an object whose `b` is a
primitive. -/
def fieldsW : List (String × DVal) :=
  [("a", .cont false [("b", .prim (.num 2))])]

/-- Claim C10 witness object. -/
def dvalW : DVal := .cont false fieldsW


/-- The de-scoped `arrayLengths` map the `users` array passes to its
items. -/
def itemALs8 : List (String × (Nat × Nat)) :=
  [("users", (2, 2)), ("addresses", (1, 1))]

/-- Options of the recursive call generating the `users` property. -/
def oU : GenOpts :=
  { overrides := [], ignoreExamples := false, propertyName := some "users",
    overridePath := "users",
    arrayLengths := [("users", (2, 2)), ("users[*].addresses", (1, 1))],
    maxDepth := 3, depth := 1, visited := [1] }

/-- Options of the call generating one user item at path `p`. -/
def oI (p : String) : GenOpts :=
  { oU with
    arrayLengths := itemALs8
    propertyName := none
    overridePath := p }

/-- Options of the call generating a user's `addresses` property. -/
def oA (p : String) : GenOpts :=
  { oI p with
    propertyName := some "addresses"
    overridePath := p ++ ".addresses"
    depth := 2
    visited := [3, 1] }

/-- Options of the call generating one address item. -/
def oAI (p : String) : GenOpts :=
  { oA p with
    arrayLengths := itemALs8
    propertyName := none }

/-- Claim C5 witness schema: an `x-faker-method` extension naming a
method that does not exist. -/
def schXF : SchemaNode := { xFakerMethod := some "nonexistent.method" }

/-- Claim C2 witness document: a single string schema with a pinned
example, referenced as the declared property of the witness object. -/
def envC2w : Env :=
  ⟨[{ tp := some (.s "string"), example? := some (.str "x") }], implAll⟩

/-- Claim C2 witness schema: an object declaring the single required
property `b` (node 0 of `envC2w`). -/
def schC2w : SchemaNode :=
  { tp := some (.s "object")
    properties := some [("b", 0)]
    required := some ["b"] }

/-- Claim C2 witness options: one override at the undeclared path `a`. -/
def optsC2w : GenOpts := { overrides := [("a", .num 1)] }

theorem jsGet_nil {α : Type} (k : String) : jsGet ([] : List (String × α)) k = none := rfl

theorem jsGet_cons {α : Type} (a : String) (b : α) (rest : List (String × α))
    (k : String) :
    jsGet ((a, b) :: rest) k = if a = k then some b else jsGet rest k := by
  by_cases h : a = k <;> simp [jsGet, List.find?, h]

theorem jsGet_jsSet {α : Type} (m : List (String × α)) (k k' : String) (v : α) :
    jsGet (jsSet m k v) k' = if k = k' then some v else jsGet m k' := by
  induction m with
  | nil =>
      by_cases h : k = k' <;> simp [jsSet, jsGet_cons, h]
  | cons p rest ih =>
      obtain ⟨a, b⟩ := p
      by_cases ha : a = k
      · subst ha
        by_cases h : a = k' <;> simp [jsSet, jsGet_cons, h]
      · by_cases h : a = k'
        · subst h
          have hk : ¬(k = a) := fun hh => ha hh.symm
          simp [jsSet, ha, jsGet_cons, hk]
      

        · simp [jsSet, ha, jsGet_cons, h, ih]

theorem jsSet_self {α : Type} (m : List (String × α)) (k : String) (w : α)
    (h : jsGet m k = some w) : jsSet m k w = m := by
  induction m with
  | nil => simp [jsGet_nil] at h
  | cons p rest ih =>
      obtain ⟨a, b⟩ := p
      rw [jsGet_cons] at h
      by_cases ha : a = k
      · subst ha
        simp at h
        simp [jsSet, h]
      · simp [ha] at h
        simp [jsSet, ha, ih h]

/-- Claim C1: for every schema S and seed K, two calls to the generation
engine with structurally identical options — each supplied a random source
freshly seeded with K — produce structurally equal output values;
generation is a deterministic function of the schema, the options and the
random-source state (`genValue` is a pure function of exactly these). -/
theorem generation_deterministic (env : Env) (schema : SchemaNode)
    (opts : GenOpts) (fuel k : Nat) (st1 st2 : FakerState)
    (h1 : st1 = mkFaker k) (h2 : st2 = mkFaker k) :
    genValue fuel env schema opts st1 = genValue fuel env schema opts st2 := by
  subst h1; subst h2; rfl

/-- Witness for C1 at a concrete schema, options and seed. -/
theorem generation_deterministic_witness :
    genValue 5 envTriv strSchema {} (mkFaker 42) =
      genValue 5 envTriv strSchema {} (mkFaker 42) :=
  generation_deterministic envTriv strSchema {} 5 42 (mkFaker 42) (mkFaker 42)
    rfl rfl

/-- Claim C6: merging two object sub-schemas yields the duplicate-free
union of their `required` lists and both `properties` maps with the later
sub-schema overwriting same-named earlier properties; merging sub-schemas
with conflicting primitive types raises an error naming both conflicting
type names. -/
theorem mergeAllOf_spec :
    mergedReq? (mergeAllOf envC6 [0, 1]) = some ["a", "b"] ∧
    mergedProps? (mergeAllOf envC6 [0, 1]) = some [("a", 2), ("b", 3)] ∧
    mergedProps? (mergeAllOf envC6 [6, 7]) = some [("p", 3)] ∧
    mergedReq? (mergeAllOf envC6 [0, 0]) = some ["a"] ∧
    mergeErr? (mergeAllOf envC6 [4, 5]) = some (conflictMsg "string" "integer") ∧
    Mentions "string" (conflictMsg "string" "integer") ∧
    Mentions "integer" (conflictMsg "string" "integer") := by
  refine ⟨rfl, rfl, rfl, rfl, rfl, ?_, ?_⟩
  · exact ⟨"openapi-mocks: allOf has conflicting types: \"", "\" vs \"integer\"", rfl⟩
  · exact ⟨"openapi-mocks: allOf has conflicting types: \"string\" vs \"", "\"", rfl⟩

theorem jsSplitAux_ne_nil (cs acc : List Char) : jsSplitAux cs acc ≠ [] := by
  induction cs generalizing acc with
  | nil => simp [jsSplitAux]
  | cons c cs ih =>
      by_cases h : c = '.' <;> simp [jsSplitAux, h, ih]

theorem jsSplit_ne_nil (path : String) : jsSplit path ≠ [] :=
  jsSplitAux_ne_nil _ _

theorem walkBlocked_fresh (b : Bool) (parts : List String) :
    walkBlocked (.cont b []) parts = false := by
  match parts with
  | [] => rfl
  | [x] => rfl
  | x :: y :: rest => simp [walkBlocked, jsGet_nil]

theorem setWalk_blocked (parts : List String) :
    ∀ (obj v : DVal), walkBlocked obj parts = true → setWalk obj parts v = obj := by
  induction parts with
  | nil => intro obj v h; simp [walkBlocked] at h
  | cons part rest ih =>
      intro obj v h
      match rest with
      | [] => simp [walkBlocked] at h
      | r2 :: rs =>
          match obj with
          | .prim p => rfl
          | .cont a fields =>
              unfold walkBlocked at h
              dsimp only at h
              cases hg : jsGet fields part with
              | none => rw [hg] at h; simp at h
              | some child =>
                  cases child with
                  | prim p => simp [setWalk, hg]
                  | cont b cf =>
                      rw [hg] at h
                      dsimp only at h
                      have h' := ih (.cont b cf) v h
                      simp [setWalk, hg, h']
                      exact jsSet_self fields part (.cont b cf) hg

theorem setWalk_unblocked (parts : List String) :
    ∀ (a : Bool) (fields : List (String × DVal)) (v : DVal),
      parts ≠ [] → walkBlocked (.cont a fields) parts = false →
      dAtParts (setWalk (.cont a fields) parts v) parts = some v := by
  induction parts with
  | nil => intro a fields v hne _; exact absurd rfl hne
  | cons part rest ih =>
      intro a fields v _ hb
      match rest with
      | [] =>
          simp [setWalk, dAtParts, jsGet_jsSet]
      | r2 :: rs =>
          unfold walkBlocked at hb
          dsimp only at hb
          cases hg : jsGet fields part with
          | none =>
              have hfb := walkBlocked_fresh (isIndexSeg r2) (r2 :: rs)
              have hrec := ih (isIndexSeg r2) [] v (by simp) hfb
              simp only [setWalk, hg]
              simp only [dAtParts, jsGet_jsSet]
              simp [hrec]
          | some child =>
              cases child with
              | prim p => rw [hg] at hb; simp at hb
              | cont b cf =>
                  rw [hg] at hb; dsimp only at hb
                  have hrec := ih b cf v (by simp) hb
                  simp only [setWalk, hg]
                  simp only [dAtParts, jsGet_jsSet]
                  simp [hrec]

/-- Claim C10: `setByPath` is atomic — when the walk meets an existing
non-container primitive at an intermediate segment it returns with the
object deeply unchanged (no intermediate container created earlier
persists, since a container is only created when the key is missing and
everything below a fresh container is missing too); otherwise the walk
succeeds and the final segment is set unconditionally, including to
null. -/
theorem setByPath_atomic :
    (∀ (obj v : DVal) (path : String),
        walkBlocked obj (jsSplit path) = true →
        setByPath obj path v = obj) ∧
    (∀ (a : Bool) (fields : List (String × DVal)) (path : String) (v : DVal),
        walkBlocked (.cont a fields) (jsSplit path) = false →
        dAtParts (setByPath (.cont a fields) path v) (jsSplit path) = some v) := by
  constructor
  · intro obj v path h
    exact setWalk_blocked (jsSplit path) obj v h
  · intro a fields path v h
    exact setWalk_unblocked (jsSplit path) a fields v (jsSplit_ne_nil path) h

/-- Witness for C10: a blocked walk (existing primitive at `a.b`) leaves
the object unchanged; an unblocked walk (`a.x.y`) creates the missing
containers and sets the final segment — here to null. -/
theorem setByPath_atomic_witness :
    (walkBlocked dvalW (jsSplit "a.b.c.d") = true ∧
      setByPath dvalW "a.b.c.d" (.prim (.num 7)) = dvalW) ∧
    (walkBlocked dvalW (jsSplit "a.x.y") = false ∧
      dAtParts (setByPath dvalW "a.x.y" (.prim .null)) (jsSplit "a.x.y") =
        some (.prim .null)) :=
  ⟨⟨by decide, setByPath_atomic.1 dvalW (.prim (.num 7)) "a.b.c.d" (by decide)⟩,
   ⟨by decide, setByPath_atomic.2 false fieldsW "a.x.y" (.prim .null) (by decide)⟩⟩

theorem descopeALs_nil (ovPath : String) (pName : Option String) :
    descopeALs [] ovPath pName = [] := rfl

theorem lookupALKey_nil (pName : Option String) (ovPath : String) :
    lookupALKey [] pName ovPath = none := by
  unfold lookupALKey
  cases pName <;> simp [jsHas, jsGet_nil]

theorem genValue_zero (env : Env) (s : SchemaNode) (opts : GenOpts)
    (st : FakerState) : genValue 0 env s opts st = .error .noFuel := by
  unfold genValue; simp

theorem genObject_zero (env : Env) (s : SchemaNode) (opts : GenOpts)
    (ovPath : String) (st : FakerState) :
    genObject 0 env s opts ovPath st = .error .noFuel := by
  unfold genObject; simp

theorem genProps_zero (env : Env) (props : List (String × Nat))
    (required : List String) (opts : GenOpts) (ovPath : String)
    (acc : List (String × JValue)) (st : FakerState) :
    genProps 0 env props required opts ovPath acc st = .error .noFuel := by
  unfold genProps; simp

theorem genArray_zero (env : Env) (s : SchemaNode) (opts : GenOpts)
    (ovPath : String) (pName : Option String) (st : FakerState) :
    genArray 0 env s opts ovPath pName st = .error .noFuel := by
  unfold genArray; simp

theorem genItems_zero (env : Env) (itemId : Option Nat) (opts : GenOpts)
    (ovPath : String) (i count : Nat) (st : FakerState) :
    genItems 0 env itemId opts ovPath i count st = .error .noFuel := by
  unfold genItems; simp

theorem genValueC4_step (f : Nat) (opts : GenOpts) (st : FakerState)
    (h1 : opts.overrides = []) (h3 : opts.propertyName = none) :
    genValue (f + 1) envC4 (getNode envC4 0) opts st =
      match genArray f envC4 (getNode envC4 0) opts opts.overridePath none st with
      | .error e => .error e
      | .ok (vs, st2, ms) => .ok ⟨.arr vs, st2, none, ms⟩ := by
  have e1 : isNullable (getNode envC4 0) = false := rfl
  have e2 : (getNode envC4 0).example? = none := rfl
  have e3 : (getNode envC4 0).default? = none := rfl
  have e4 : (getNode envC4 0).xFakerMethod = none := rfl
  have e5 : nonEmptyL (getNode envC4 0).allOf = none := rfl
  have e6 : nonEmptyL (getNode envC4 0).oneOf = none := rfl
  have e7 : nonEmptyL (getNode envC4 0).anyOf = none := rfl
  have e8 : resolveType (getNode envC4 0) = some "array" := rfl
  unfold genValue
  simp only [Nat.succ_ne_zero, dite_false, Nat.add_sub_cancel, h1, h3,
    jsGet_nil, ite_self, e1, e2, e3, e4, e5, e6, e7, e8, Bool.false_eq_true,
    if_false]

theorem genArrayC4_step (f : Nat) (opts : GenOpts) (ovPath : String)
    (st : FakerState) (h2 : opts.arrayLengths = []) :
    genArray (f + 1) envC4 (getNode envC4 0) opts ovPath none st =
      genItems f envC4 (some 0)
        { opts with arrayLengths := [], propertyName := none }
        ovPath 0 1 (fNext st).2 := by
  have e1 : effBounds (getNode envC4 0) none ovPath [] = (1, 1) := by
    unfold effBounds
    rw [lookupALKey_nil]
    rfl
  have e2 : (getNode envC4 0).items = some 0 := rfl
  unfold genArray
  simp only [Nat.succ_ne_zero, dite_false, Nat.add_sub_cancel, h2,
    descopeALs_nil, e1, e2, fInt, fNext, Nat.mod_one]
  norm_num [Nat.mod_one]

/-- Claim C4 (what the code actually does): on the self-referential array
schema of `docC4` — whose `items` is the schema node itself, pinned to one
item per level — the engine never returns: every fuel bound is exhausted.
`generateArray` recurses into `items` without incrementing the depth
counter or extending the visited set, so the circular-reference guard never
fires on a cycle made of `items` edges only. -/
theorem items_cycle_diverges (fuel : Nat) :
    ∀ (opts : GenOpts) (st : FakerState),
      opts.overrides = [] → opts.arrayLengths = [] → opts.propertyName = none →
      genValue fuel envC4 (getNode envC4 0) opts st = .error .noFuel := by
  induction fuel using Nat.strong_induction_on with
  | _ fuel ih =>
    intro opts st h1 h2 h3
    by_cases hf : fuel = 0
    · subst hf; rw [genValue_zero]
    · obtain ⟨f, rfl⟩ := Nat.exists_eq_succ_of_ne_zero hf
      rw [genValueC4_step f opts st h1 h3]
      by_cases hf2 : f = 0
      · subst hf2; rw [genArray_zero]
      · obtain ⟨f2, rfl⟩ := Nat.exists_eq_succ_of_ne_zero hf2
        rw [genArrayC4_step f2 opts opts.overridePath st h2]
        by_cases hf3 : f2 = 0
        · subst hf3; rw [genItems_zero]
        · obtain ⟨f3, rfl⟩ := Nat.exists_eq_succ_of_ne_zero hf3
          unfold genItems
          simp only [Nat.succ_ne_zero, dite_false, Nat.add_sub_cancel,
            Nat.succ_sub_one]
          have hrec := ih f3 (by omega)
            { overrides := opts.overrides,
              ignoreExamples := opts.ignoreExamples,
              propertyName := none,
              overridePath :=
                if opts.overridePath = "" then toString 0
                else opts.overridePath ++ "." ++ toString 0,
              arrayLengths := [], maxDepth := opts.maxDepth,
              depth := opts.depth, visited := opts.visited }
            (fNext st).2 (by simpa using h1) rfl rfl
          rw [hrec]

/-- Witness for C4's divergence theorem at concrete fuel, options, seed. -/
theorem items_cycle_diverges_witness :
    genValue 100 envC4 (getNode envC4 0) {} (mkFaker 3) = .error .noFuel :=
  items_cycle_diverges 100 {} (mkFaker 3) rfl rfl rfl

theorem c8_addr_item (g : Nat) (opts : GenOpts) (st : FakerState)
    (h1 : opts.overrides = []) (h2 : opts.propertyName = none) :
    ∃ v st', genValue (g + 3) envC8 (getNode envC8 4) opts st =
      .ok ⟨v, st', none, []⟩ := by
  have e1 : isNullable (getNode envC8 4) = false := rfl
  have e2 : (getNode envC8 4).example? = none := rfl
  have e3 : (getNode envC8 4).default? = none := rfl
  have e4 : (getNode envC8 4).xFakerMethod = none := rfl
  have e5 : nonEmptyL (getNode envC8 4).allOf = none := rfl
  have e6 : nonEmptyL (getNode envC8 4).oneOf = none := rfl
  have e7 : nonEmptyL (getNode envC8 4).anyOf = none := rfl
  have e8 : resolveType (getNode envC8 4) = some "string" := rfl
  have e9 : (getNode envC8 4).enum? = none := rfl
  have e10 : (getNode envC8 4).tp = some (.s "string") := rfl
  simp only [genValue, fbValue, fbTyped, h1, h2, jsGet_nil, ite_self, e1, e2,
    e3, e4, e5, e6, e7, e8, e9, e10, Bool.false_eq_true, if_false]
  exact ⟨_, _, rfl⟩

theorem c8_addr_items (g : Nat) (opts : GenOpts) (ovPath : String)
    (st : FakerState) (h1 : opts.overrides = []) (h2 : opts.propertyName = none) :
    ∃ v st', genItems (g + 5) envC8 (some 4) opts ovPath 0 1 st =
      .ok ([v], st', []) := by
  obtain ⟨v, st', hitem⟩ := c8_addr_item (g + 1)
    { opts with overridePath :=
        if ovPath = "" then toString 0 else ovPath ++ "." ++ toString 0 } st
    (by simpa using h1) (by simpa using h2)
  refine ⟨v, st', ?_⟩
  simp only [genItems]
  rw [show g + 1 + 3 = g + 4 from rfl] at hitem
  rw [hitem]
  simp [genItems]

theorem fInt_self (lo : Nat) (st : FakerState) :
    fInt lo lo st = (lo, (fNext st).2) := by
  unfold fInt
  simp [Nat.sub_self, Nat.mod_one]

set_option maxRecDepth 8000 in
theorem c8_addr (g : Nat) (p : String) (st : FakerState)
    (h3 : descopeALs itemALs8 (p ++ ".addresses") (some "addresses") = itemALs8) :
    ∃ v st', genValue (g + 7) envC8 (getNode envC8 3) (oA p) st =
      .ok ⟨.arr [v], st', none, []⟩ := by
  have e1 : isNullable (getNode envC8 3) = false := rfl
  have e2 : (getNode envC8 3).example? = none := rfl
  have e3 : (getNode envC8 3).default? = none := rfl
  have e4 : (getNode envC8 3).xFakerMethod = none := rfl
  have e5 : nonEmptyL (getNode envC8 3).allOf = none := rfl
  have e6 : nonEmptyL (getNode envC8 3).oneOf = none := rfl
  have e7 : nonEmptyL (getNode envC8 3).anyOf = none := rfl
  have e8 : resolveType (getNode envC8 3) = some "array" := rfl
  have e9 : (getNode envC8 3).items = some 4 := rfl
  have e10 : effBounds (getNode envC8 3) (some "addresses") (p ++ ".addresses")
      itemALs8 = (1, 1) := rfl
  have hsd : getSmartDefault "addresses" (smartTypeArg (getNode envC8 3)) = none := rfl
  obtain ⟨v, st', hitems⟩ := c8_addr_items g
    { oA p with arrayLengths := itemALs8, propertyName := none }
    (p ++ ".addresses") (fNext st).2 (by simp [oA, oI, oU]) rfl
  refine ⟨v, st', ?_⟩
  rw [genValue]
  generalize hG : g + 6 = G
  simp only [oA, oI, oU, itemALs8, jsGet_nil, ite_self, e1, e2, e3, e4, e5,
    e6, e7, e8, e9, hsd, Bool.false_eq_true, if_false]
  subst hG
  rw [genArray]
  generalize hG2 : g + 5 = G2
  simp only [oA, oI, oU, itemALs8] at e10 h3 hitems
  simp only [e10, h3, e9, fInt_self]
  subst hG2
  rw [hitems]

theorem happAddr (p : String) : p ++ "." ++ "addresses" = p ++ ".addresses" := by
  rw [String.append_assoc]
  rfl

set_option maxRecDepth 8000 in
theorem c8_user (g : Nat) (p : String) (st : FakerState) (hpe : p ≠ "")
    (h3 : descopeALs itemALs8 (p ++ ".addresses") (some "addresses") = itemALs8) :
    ∃ a st', genValue (g + 10) envC8 (getNode envC8 2) (oI p) st =
      .ok ⟨.obj [("addresses", .arr [a])], st', none, []⟩ := by
  have e1 : isNullable (getNode envC8 2) = false := rfl
  have e2 : (getNode envC8 2).example? = none := rfl
  have e3 : (getNode envC8 2).default? = none := rfl
  have e4 : (getNode envC8 2).xFakerMethod = none := rfl
  have e5 : nonEmptyL (getNode envC8 2).allOf = none := rfl
  have e6 : nonEmptyL (getNode envC8 2).oneOf = none := rfl
  have e7 : nonEmptyL (getNode envC8 2).anyOf = none := rfl
  have e8 : resolveType (getNode envC8 2) = some "object" := rfl
  have e9 : (getNode envC8 2).properties = some [("addresses", 3)] := rfl
  have e10 : (getNode envC8 2).required = some ["addresses"] := rfl
  obtain ⟨a, st', haddr⟩ := c8_addr g p st h3
  refine ⟨a, st', ?_⟩
  rw [genValue]
  generalize hG : g + 9 = G
  simp only [oI, oU, itemALs8, jsGet_nil, ite_self, e1, e2, e3, e4, e5,
    e6, e7, e8, Bool.false_eq_true, if_false]
  subst hG
  rw [genObject]
  generalize hG2 : g + 8 = G2
  simp only [e9, e10]
  subst hG2
  rw [genProps]
  generalize hG3 : g + 7 = G3
  simp only [oI, oU, itemALs8, List.contains_cons, List.any_nil,
    Bool.not_true, Bool.false_and, Bool.and_false, if_neg hpe, happAddr]
  simp [hpe, happAddr, -Prod.mk_one_one]
  subst hG3
  simp only [oA, oI, oU, itemALs8] at haddr
  rw [haddr]
  simp [genProps, applyDirectOverrides, jsSet]

set_option maxRecDepth 8000 in
theorem c8_users_items (g : Nat) (st : FakerState) :
    ∃ a0 a1 st', genItems (g + 12) envC8 (some 2)
        { oU with
          arrayLengths := itemALs8
          propertyName := none } "users" 0 2 st =
      .ok ([.obj [("addresses", .arr [a0])], .obj [("addresses", .arr [a1])]],
           st', []) := by
  have hp0 : (if ("users" : String) = "" then toString 0
      else "users" ++ "." ++ toString 0) = "users.0" := by rfl
  have hp1 : (if ("users" : String) = "" then toString 1
      else "users" ++ "." ++ toString 1) = "users.1" := by rfl
  obtain ⟨a0, st0, hu0⟩ := c8_user (g + 1) "users.0" st (by decide) rfl
  obtain ⟨a1, st1, hu1⟩ := c8_user g "users.1" st0 (by decide) rfl
  refine ⟨a0, a1, st1, ?_⟩
  rw [genItems]
  generalize hG : g + 11 = G
  simp only [oI, oU, itemALs8, hp0]
  subst hG
  simp only [oI, oU, itemALs8] at hu0
  rw [hu0]
  dsimp only
  rw [genItems]
  generalize hG2 : g + 10 = G2
  simp only [oI, oU, itemALs8, hp1]
  subst hG2
  simp only [oI, oU, itemALs8] at hu1
  rw [hu1]
  dsimp only
  rw [genItems]
  rfl

set_option maxRecDepth 8000 in
theorem c8_users (g : Nat) (st : FakerState) :
    ∃ a0 a1 st', genValue (g + 14) envC8 (getNode envC8 1) oU st =
      .ok ⟨.arr [.obj [("addresses", .arr [a0])], .obj [("addresses", .arr [a1])]],
           st', none, []⟩ := by
  have e1 : isNullable (getNode envC8 1) = false := rfl
  have e2 : (getNode envC8 1).example? = none := rfl
  have e3 : (getNode envC8 1).default? = none := rfl
  have e4 : (getNode envC8 1).xFakerMethod = none := rfl
  have e5 : nonEmptyL (getNode envC8 1).allOf = none := rfl
  have e6 : nonEmptyL (getNode envC8 1).oneOf = none := rfl
  have e7 : nonEmptyL (getNode envC8 1).anyOf = none := rfl
  have e8 : resolveType (getNode envC8 1) = some "array" := rfl
  have e9 : (getNode envC8 1).items = some 2 := rfl
  have hsd : getSmartDefault "users" (smartTypeArg (getNode envC8 1)) = none := rfl
  have e10 : effBounds (getNode envC8 1) (some "users") "users"
      [("users", (2, 2)), ("users[*].addresses", (1, 1))] = (2, 2) := rfl
  have hds : descopeALs [("users", (2, 2)), ("users[*].addresses", (1, 1))]
      "users" (some "users") = itemALs8 := rfl
  obtain ⟨a0, a1, st', hitems⟩ := c8_users_items g (fNext st).2
  refine ⟨a0, a1, st', ?_⟩
  rw [genValue]
  generalize hG : g + 13 = G
  simp only [oU, itemALs8, jsGet_nil, ite_self, e1, e2, e3, e4, e5, e6, e7,
    e8, e9, hsd, Bool.false_eq_true, if_false]
  subst hG
  rw [genArray]
  generalize hG2 : g + 12 = G2
  simp only [oU, itemALs8] at e10 hds hitems
  simp only [e10, hds, e9, fInt_self]
  subst hG2
  rw [hitems]

set_option maxRecDepth 8000 in
theorem c8_top (g : Nat) (st : FakerState) :
    ∃ a0 a1 st', genValue (g + 17) envC8 (getNode envC8 0) optsC8 st =
      .ok ⟨.obj [("users",
             .arr [.obj [("addresses", .arr [a0])],
                   .obj [("addresses", .arr [a1])]])], st', none, []⟩ := by
  have e1 : isNullable (getNode envC8 0) = false := rfl
  have e2 : (getNode envC8 0).example? = none := rfl
  have e3 : (getNode envC8 0).default? = none := rfl
  have e4 : (getNode envC8 0).xFakerMethod = none := rfl
  have e5 : nonEmptyL (getNode envC8 0).allOf = none := rfl
  have e6 : nonEmptyL (getNode envC8 0).oneOf = none := rfl
  have e7 : nonEmptyL (getNode envC8 0).anyOf = none := rfl
  have e8 : resolveType (getNode envC8 0) = some "object" := rfl
  have e9 : (getNode envC8 0).properties = some [("users", 1)] := rfl
  have e10 : (getNode envC8 0).required = some ["users"] := rfl
  obtain ⟨a0, a1, st', husers⟩ := c8_users g st
  refine ⟨a0, a1, st', ?_⟩
  rw [genValue]
  generalize hG : g + 16 = G
  simp only [optsC8, jsGet_nil, ite_self, e1, e2, e3, e4, e5, e6, e7, e8,
    Bool.false_eq_true, if_false]
  subst hG
  rw [genObject]
  generalize hG2 : g + 15 = G2
  simp only [e9, e10]
  subst hG2
  rw [genProps]
  generalize hG3 : g + 14 = G3
  simp [optsC8]
  subst hG3
  simp only [oU, itemALs8, optsC8, Prod.mk_one_one] at husers
  rw [husers]
  simp [genProps, applyDirectOverrides, jsSet]

set_option maxRecDepth 8000 in
/-- Claim C8: with `arrayLengths` of `users := [2,2]` and
`users[*].addresses := [1,1]` applied to a schema whose `users` property is
an array of objects each having a required `addresses` array property, the
generated output contains exactly 2 users and each user exactly 1 address,
for every seed; the wildcard key is de-scoped by stripping the `users[*].`
base before item generation while the non-matching `users` key passes
through unchanged. -/
theorem wildcard_array_lengths (st : FakerState) :
    ∃ out, genValue 40 envC8 (getNode envC8 0) optsC8 st = .ok out ∧
      arrLen? (out.val.atPath "users") = some 2 ∧
      arrLen? (out.val.atPath "users.0.addresses") = some 1 ∧
      arrLen? (out.val.atPath "users.1.addresses") = some 1 ∧
      descopeALs optsC8.arrayLengths "users" (some "users") =
        [("users", (2, 2)), ("addresses", (1, 1))] := by
  obtain ⟨a0, a1, st', h⟩ := c8_top 23 st
  rw [show (40 : Nat) = 23 + 17 from rfl]
  exact ⟨_, h, rfl, rfl, rfl, rfl⟩

theorem strList_mk (l : List Char) : (String.mk l).toList = l := rfl

theorem isPre_append : ∀ (ps cs : List Char), isPre ps cs = true →
    cs = ps ++ cs.drop ps.length := by
  intro ps
  induction ps with
  | nil => intro cs _; simp
  | cons p pr ih =>
      intro cs h
      cases cs with
      | nil => simp [isPre] at h
      | cons c cr =>
          simp [isPre] at h
          obtain ⟨h1, h2⟩ := h
          subst h1
          simpa using ih cr h2

theorem strStarts_inj (k k' pre : String) (h1 : strStarts k pre = true)
    (h2 : strStarts k' pre = true)
    (h3 : strDrop k (strLen pre) = strDrop k' (strLen pre)) : k = k' := by
  have e1 := isPre_append pre.toList k.toList h1
  have e2 := isPre_append pre.toList k'.toList h2
  have e3 : k.toList.drop pre.toList.length = k'.toList.drop pre.toList.length := by
    have := congrArg String.toList h3
    simpa [strDrop, strLen, strList_mk] using this
  have h4 : k.toList = k'.toList := by rw [e1, e2, e3]
  cases k; cases k'
  exact congrArg String.mk (by simpa using h4)

theorem ado_skip (pre k : String) :
    ∀ (ovs acc : List (String × JValue)),
      strStarts k pre = true →
      (∀ kv ∈ ovs, kv.1 ≠ k) →
      jsGet (List.foldl (fun acc kv =>
          if strStarts kv.1 pre && !((strDrop kv.1 (strLen pre)).toList.contains '.')
          then jsSet acc (strDrop kv.1 (strLen pre)) kv.2 else acc) acc ovs)
        (strDrop k (strLen pre)) = jsGet acc (strDrop k (strLen pre)) := by
  intro ovs
  induction ovs with
  | nil => intro acc _ _; rfl
  | cons kv0 rest ih =>
      intro acc hk hne
      obtain ⟨k0, v0⟩ := kv0
      have hne0 : k0 ≠ k := hne (k0, v0) (List.mem_cons_self _ _)
      have hnerest : ∀ kv ∈ rest, kv.1 ≠ k :=
        fun kv hm => hne kv (List.mem_cons_of_mem _ hm)
      by_cases hc : (strStarts k0 pre &&
          !((strDrop k0 (strLen pre)).toList.contains '.')) = true
      · have hs0 : strStarts k0 pre = true := by
          cases hb : strStarts k0 pre
          · rw [hb] at hc; simp at hc
          · rfl
        have hdne : strDrop k0 (strLen pre) ≠ strDrop k (strLen pre) := by
          intro he
          exact hne0 (strStarts_inj k0 k pre hs0 hk he)
        simp only [List.foldl_cons, if_pos hc]
        rw [ih (jsSet acc (strDrop k0 (strLen pre)) v0) hk hnerest]
        rw [jsGet_jsSet]
        simp [hdne]
      · simp only [List.foldl_cons, if_neg hc]
        exact ih acc hk hnerest

theorem ado_mem (pre : String) :
    ∀ (ovs acc : List (String × JValue)) (k : String) (v : JValue),
      (List.map Prod.fst ovs).Nodup →
      (k, v) ∈ ovs →
      strStarts k pre = true →
      ((strDrop k (strLen pre)).toList.contains '.') = false →
      jsGet (List.foldl (fun acc kv =>
          if strStarts kv.1 pre && !((strDrop kv.1 (strLen pre)).toList.contains '.')
          then jsSet acc (strDrop kv.1 (strLen pre)) kv.2 else acc) acc ovs)
        (strDrop k (strLen pre)) = some v := by
  intro ovs
  induction ovs with
  | nil => intro acc k v _ hm; simp at hm
  | cons kv0 rest ih =>
      intro acc k v hnd hm hk hdot
      obtain ⟨k0, v0⟩ := kv0
      simp only [List.map_cons, List.nodup_cons] at hnd
      rcases List.mem_cons.mp hm with heq | hmem
      · obtain ⟨hk0, hv0⟩ := Prod.mk.injEq .. ▸ heq
        subst hk0; subst hv0
        have hc : (strStarts k pre &&
            !((strDrop k (strLen pre)).toList.contains '.')) = true := by
          rw [hk, hdot]; rfl
        simp only [List.foldl_cons, if_pos hc]
        have hnerest : ∀ kv ∈ rest, kv.1 ≠ k := by
          intro kv hkv he
          exact hnd.1 (he ▸ List.mem_map_of_mem Prod.fst hkv)
        rw [ado_skip pre k rest (jsSet acc (strDrop k (strLen pre)) v) hk hnerest]
        rw [jsGet_jsSet]
        simp
      · by_cases hc : (strStarts k0 pre &&
            !((strDrop k0 (strLen pre)).toList.contains '.')) = true
        · simp only [List.foldl_cons, if_pos hc]
          exact ih _ k v hnd.2 hmem hk hdot
        · simp only [List.foldl_cons, if_neg hc]
          exact ih _ k v hnd.2 hmem hk hdot

/-- Claim C2 counterexample: with the override map `{"a": 1}` and an
object schema that declares no `properties`, `generateValueForSchema`
returns the empty object — `generateObject` exits before its direct
override scan, so the value at path `a` is absent rather than `O["a"]`.
The claimed "regardless of schema content at that path" is false. -/
theorem override_lost_without_properties :
    valOf (genValue 8 envTriv schC2 optsC2 (mkFaker 5)) = some (.obj []) ∧
    (JValue.obj []).atPath "a" = none ∧
    jsGet optsC2.overrides "a" = some (.num 1) := ⟨rfl, rfl, rfl⟩

/-- Claim C2 (amended): an override is honoured in exactly two situations —
(i) when the current override path is non-empty and an exact key of the
override map, `generateValueForSchema` returns the literal override value
immediately for any schema whatsoever; and (ii) when the schema declares a
`properties` object (even an empty one), `generateObject`'s direct
override scan writes every override key extending the current path by one
dot-free segment into the generated object under that segment, assuming
pairwise distinct override keys.  If the schema at the override's parent
path has no declared `properties`, the override is lost. -/
theorem override_exact_or_direct :
    (∀ (fuel : Nat) (env : Env) (schema : SchemaNode) (opts : GenOpts)
        (st : FakerState) (v : JValue),
      opts.overridePath ≠ "" →
      jsGet opts.overrides opts.overridePath = some v →
      genValue (fuel + 1) env schema opts st = .ok ⟨v, st, none, []⟩) ∧
    (∀ (f : Nat) (env : Env) (schema : SchemaNode) (opts : GenOpts)
        (ovPath : String) (st : FakerState)
        (props : List (String × Nat)) (flds : List (String × JValue))
        (st' : FakerState) (ms : List Mut) (k : String) (v : JValue),
      schema.properties = some props →
      genObject f env schema opts ovPath st = .ok (flds, st', ms) →
      (opts.overrides.map Prod.fst).Nodup →
      (k, v) ∈ opts.overrides →
      strStarts k (if ovPath = "" then "" else ovPath ++ ".") = true →
      ((strDrop k (strLen (if ovPath = "" then "" else ovPath ++ "."))).toList.contains '.')
        = false →
      jsGet flds (strDrop k (strLen (if ovPath = "" then "" else ovPath ++ ".")))
        = some v) := by
  constructor
  · intro fuel env schema opts st v hne hget
    rw [genValue]
    dsimp only
    rw [if_neg hne, hget]
  · intro f env schema opts ovPath st props flds st' ms k v hprops hrun hnd hmem hpre hdot
    cases f with
    | zero => rw [genObject_zero] at hrun; exact Except.noConfusion hrun
    | succ f =>
      rw [genObject] at hrun
      rw [hprops] at hrun
      dsimp only at hrun
      cases hgp : genProps f env props (schema.required.getD []) opts ovPath [] st with
      | error e => rw [hgp] at hrun; exact Except.noConfusion hrun
      | ok r =>
          obtain ⟨fields, st1, ms1⟩ := r
          rw [hgp] at hrun
          dsimp only at hrun
          simp only [Except.ok.injEq, Prod.mk.injEq] at hrun
          obtain ⟨hf, -, -⟩ := hrun
          subst hf
          unfold applyDirectOverrides
          exact ado_mem _ _ _ k v hnd hmem hpre hdot

/-- Claim C2 witness: part (i) at a one-entry override map hit exactly by
the current path; part (ii) at the witness object schema, where the
undeclared override key `a` lands in the generated object. -/
theorem override_exact_or_direct_witness :
    genValue 1 envTriv emptySchema
      { overrides := [("a", .num 1)], overridePath := "a" } (mkFaker 5) =
      .ok ⟨.num 1, mkFaker 5, none, []⟩ ∧
    jsGet [("b", JValue.str "x"), ("a", JValue.num 1)] "a" = some (.num 1) :=
  ⟨override_exact_or_direct.1 0 envTriv emptySchema
      { overrides := [("a", .num 1)], overridePath := "a" } (mkFaker 5)
      (.num 1) (by decide) rfl,
   override_exact_or_direct.2 6 envC2w schC2w optsC2w "" (mkFaker 5)
      [("b", 0)] [("b", .str "x"), ("a", .num 1)] (mkFaker 5) []
      "a" (.num 1) rfl rfl (by decide) (List.mem_cons_self _ _) rfl rfl⟩

theorem jsHas_jsSet {α : Type} (m : List (String × α)) (k k' : String) (v : α)
    (h : jsHas m k' = true) : jsHas (jsSet m k v) k' = true := by
  unfold jsHas at *
  rw [jsGet_jsSet]
  by_cases hk : k = k'
  · simp [hk]
  · rw [if_neg hk]; exact h

theorem ado_preserves (pre : String) :
    ∀ (ovs acc : List (String × JValue)) (k : String),
      jsHas acc k = true →
      jsHas (List.foldl (fun acc kv =>
          if strStarts kv.1 pre && !((strDrop kv.1 (strLen pre)).toList.contains '.')
          then jsSet acc (strDrop kv.1 (strLen pre)) kv.2 else acc) acc ovs) k = true := by
  intro ovs
  induction ovs with
  | nil => intro acc k h; exact h
  | cons kv0 rest ih =>
      intro acc k h
      by_cases hc : (strStarts kv0.1 pre &&
          !((strDrop kv0.1 (strLen pre)).toList.contains '.')) = true
      · simp only [List.foldl_cons, if_pos hc]
        exact ih _ k (jsHas_jsSet acc _ k kv0.2 h)
      · simp only [List.foldl_cons, if_neg hc]
        exact ih _ k h

theorem genProps_key :
    ∀ (props : List (String × Nat)) (f : Nat) (env : Env) (required : List String)
      (opts : GenOpts) (ovPath : String) (acc : List (String × JValue))
      (st : FakerState) (fields : List (String × JValue)) (st' : FakerState)
      (ms : List Mut) (k : String),
      genProps f env props required opts ovPath acc st = .ok (fields, st', ms) →
      (required.contains k = true ∧ k ∈ props.map Prod.fst) ∨ jsHas acc k = true →
      jsHas fields k = true := by
  intro props
  induction props with
  | nil =>
      intro f env required opts ovPath acc st fields st' ms k hrun hk
      cases f with
      | zero => rw [genProps_zero] at hrun; exact Except.noConfusion hrun
      | succ f =>
          rw [genProps] at hrun
          simp only [Except.ok.injEq, Prod.mk.injEq] at hrun
          obtain ⟨hf, -, -⟩ := hrun
          subst hf
          rcases hk with ⟨-, hmem⟩ | hacc
          · simp at hmem
          · exact hacc
  | cons p rest ih =>
      obtain ⟨key, childId⟩ := p
      intro f env required opts ovPath acc st fields st' ms k hrun hk
      cases f with
      | zero => rw [genProps_zero] at hrun; exact Except.noConfusion hrun
      | succ f =>
          rw [genProps] at hrun
          dsimp only at hrun
          generalize hpp : (if ovPath = "" then key else ovPath ++ "." ++ key) = pp at hrun
          generalize hod : (if (!required.contains key &&
              !(opts.overrides.any (fun kv => (kv.1 = pp) || strStarts kv.1 (pp ++ ".")))) = true
            then fBool st else (false, st)) = od at hrun
          obtain ⟨omitNow, st1⟩ := od
          dsimp only at hrun
          cases omitNow with
          | true =>
              rw [if_pos rfl] at hrun
              rcases hk with ⟨hreq, hmem⟩ | hacc
              · rcases List.mem_cons.mp hmem with hkey | hrest
                · subst hkey
                  rw [hreq] at hod
                  simp at hod
                · exact ih f env required opts ovPath acc st1 fields st' ms k hrun
                    (Or.inl ⟨hreq, hrest⟩)
              · exact ih f env required opts ovPath acc st1 fields st' ms k hrun
                  (Or.inr hacc)
          | false =>
              rw [if_neg (by decide)] at hrun
              by_cases hvd : (opts.visited.contains childId &&
                  decide (opts.depth ≥ opts.maxDepth)) = true
              · rw [if_pos hvd] at hrun
                by_cases hreqb : required.contains key = true
                · rw [if_pos hreqb] at hrun
                  rcases hk with ⟨hreq, hmem⟩ | hacc
                  · rcases List.mem_cons.mp hmem with hkey | hrest
                    · subst hkey
                      refine ih f env required opts ovPath _ st1 fields st' ms k hrun
                        (Or.inr ?_)
                      simp [jsHas, jsGet_jsSet]
                    · exact ih f env required opts ovPath _ st1 fields st' ms k hrun
                        (Or.inl ⟨hreq, hrest⟩)
                  · exact ih f env required opts ovPath _ st1 fields st' ms k hrun
                      (Or.inr (jsHas_jsSet acc key k _ hacc))
                · rw [if_neg hreqb] at hrun
                  rcases hk with ⟨hreq, hmem⟩ | hacc
                  · rcases List.mem_cons.mp hmem with hkey | hrest
                    · subst hkey; exact absurd hreq hreqb
                    · exact ih f env required opts ovPath acc st1 fields st' ms k hrun
                        (Or.inl ⟨hreq, hrest⟩)
                  · exact ih f env required opts ovPath acc st1 fields st' ms k hrun
                      (Or.inr hacc)
              · rw [if_neg hvd] at hrun
                cases hgv : genValue f env (getNode env childId)
                    { opts with
                      propertyName := some key
                      overridePath := pp
                      depth := opts.depth + 1
                      visited := if opts.visited.contains childId then opts.visited
                        else childId :: opts.visited } st1 with
                | error e =>
                    rw [hgv] at hrun
                    dsimp only at hrun
                    exact Except.noConfusion hrun
                | ok out =>
                    rw [hgv] at hrun
                    dsimp only at hrun
                    cases hgp2 : genProps f env rest required opts ovPath
                        (jsSet acc key out.val) out.st with
                    | error e =>
                        rw [hgp2] at hrun
                        dsimp only at hrun
                        exact Except.noConfusion hrun
                    | ok r =>
                        obtain ⟨fields2, st2, ms2⟩ := r
                        rw [hgp2] at hrun
                        dsimp only at hrun
                        simp only [Except.ok.injEq, Prod.mk.injEq] at hrun
                        obtain ⟨hf, -, -⟩ := hrun
                        subst hf
                        rcases hk with ⟨hreq, hmem⟩ | hacc
                        · rcases List.mem_cons.mp hmem with hkey | hrest
                          · subst hkey
                            refine ih f env required opts ovPath _ out.st fields2 st2
                              ms2 k hgp2 (Or.inr ?_)
                            simp [jsHas, jsGet_jsSet]
                          · exact ih f env required opts ovPath _ out.st fields2 st2
                              ms2 k hgp2 (Or.inl ⟨hreq, hrest⟩)
                        · exact ih f env required opts ovPath _ out.st fields2 st2
                            ms2 k hgp2 (Or.inr (jsHas_jsSet acc key k _ hacc))

/-- Claim C3 counterexample: a schema whose `required` lists `a` while its
`properties` object does not declare `a` generates the empty object — the
required name is absent from the output (not null, not a stub), because
the property loop iterates over `properties` only and never consults
`required` for names to add. -/
theorem required_name_absent :
    valOf (genValue 8 envTriv schC3 {} (mkFaker 0)) = some (.obj []) ∧
    (JValue.obj []).atPath "a" = none ∧
    schC3.required = some ["a"] := ⟨rfl, rfl, rfl⟩

/-- Claim C3 (amended): for every successful `generateObject` run, every
name that is both listed in the schema's `required` set and declared in its
`properties` object is present as a key of the generated object — the
omission coin-flip is skipped for required properties, the depth guard
substitutes a minimal stub rather than omitting, and the direct-override
scan only ever adds or replaces keys.  Required names missing from
`properties` carry no such guarantee (see the counterexample). -/
theorem required_declared_present :
    ∀ (f : Nat) (env : Env) (schema : SchemaNode) (opts : GenOpts)
      (ovPath : String) (st : FakerState) (props : List (String × Nat))
      (flds : List (String × JValue)) (st' : FakerState) (ms : List Mut)
      (k : String),
      schema.properties = some props →
      genObject f env schema opts ovPath st = .ok (flds, st', ms) →
      (schema.required.getD []).contains k = true →
      k ∈ props.map Prod.fst →
      jsHas flds k = true := by
  intro f env schema opts ovPath st props flds st' ms k hprops hrun hreq hmem
  cases f with
  | zero => rw [genObject_zero] at hrun; exact Except.noConfusion hrun
  | succ f =>
      rw [genObject] at hrun
      rw [hprops] at hrun
      dsimp only at hrun
      cases hgp : genProps f env props (schema.required.getD []) opts ovPath [] st with
      | error e =>
          rw [hgp] at hrun
          dsimp only at hrun
          exact Except.noConfusion hrun
      | ok r =>
          obtain ⟨fields, st1, ms1⟩ := r
          rw [hgp] at hrun
          dsimp only at hrun
          simp only [Except.ok.injEq, Prod.mk.injEq] at hrun
          obtain ⟨hf, -, -⟩ := hrun
          subst hf
          have hfield : jsHas fields k = true :=
            genProps_key props f env (schema.required.getD []) opts ovPath [] st
              fields st1 ms1 k hgp (Or.inl ⟨hreq, hmem⟩)
          unfold applyDirectOverrides
          exact ado_preserves _ _ _ k hfield

/-- Claim C3 witness: the witness object schema requires and declares `b`,
and `b` is indeed a key of the generated object. -/
theorem required_declared_present_witness :
    jsHas [("b", JValue.str "x"), ("a", JValue.num 1)] "b" = true :=
  required_declared_present 6 envC2w schC2w optsC2w "" (mkFaker 5)
    [("b", 0)] [("b", .str "x"), ("a", .num 1)] (mkFaker 5) [] "b"
    rfl rfl rfl (by decide)

theorem fbValue_string (f : Nat) (env : Env) (schema : SchemaNode) (st : FakerState)
    (v : JValue) (st1 : FakerState)
    (htp : schema.tp = some (.s "string")) (hen : schema.enum? = none)
    (hfs : fbString env.impl schema st = (v, st1)) :
    fbValue (f + 2) env schema st = .ok (v, st1, none) := by
  rw [fbValue]
  simp only [hen]
  rw [fbTyped]
  simp [htp, hfs]

/-- Claim C5 counterexample: with property name `email` on a plain string
schema, the smart default resolves to `internet.email`; on a provider where
that path is not invocable the engine does not raise — the try/catch around
the smart-default invocation absorbs the failure and generation falls
through to the type fallback, returning a value. -/
theorem smart_default_error_absorbed :
    getSmartDefault "email" (smartTypeArg strSchema) = some "internet.email" ∧
    envC5.impl.resolvable "internet.email" = false ∧
    ∃ out, genValue 3 envC5 strSchema optsC5 (mkFaker 3) = .ok out :=
  ⟨rfl, rfl, ⟨_, rfl⟩⟩

/-- Claim C5 (amended): the two sources of an unresolvable generator path
behave differently.  (i) An `x-faker-method` extension naming a
non-invocable path makes `generateValueForSchema` raise the descriptive
error — which mentions the offending path — and the error propagates
uncaught to the caller.  (ii) A smart-default-resolved path that is not
invocable is absorbed internally: generation still succeeds (here via the
string type fallback), contradicting the claim that both sources
propagate. -/
theorem unresolvable_generator_paths :
    (∀ (f : Nat) (env : Env) (schema : SchemaNode) (opts : GenOpts)
        (st : FakerState) (p : String),
      opts.overridePath = "" →
      isNullable schema = false →
      schema.example? = none → schema.default? = none →
      schema.xFakerMethod = some p →
      env.impl.resolvable p = false →
      genValue (f + 1) env schema opts st = .error (.thrown (fakerErrMsg p)) ∧
        Mentions p (fakerErrMsg p)) ∧
    (∀ (f : Nat) (env : Env) (schema : SchemaNode) (opts : GenOpts)
        (st : FakerState) (nm sp : String),
      opts.overridePath = "" →
      isNullable schema = false →
      schema.example? = none → schema.default? = none →
      schema.xFakerMethod = none →
      opts.propertyName = some nm → nm ≠ "" →
      getSmartDefault nm (smartTypeArg schema) = some sp →
      env.impl.resolvable sp = false →
      schema.allOf = none → schema.oneOf = none → schema.anyOf = none →
      schema.tp = some (.s "string") → schema.enum? = none →
      ∃ out, genValue (f + 3) env schema opts st = .ok out) := by
  constructor
  · intro f env schema opts st p hov hnul hex hdef hxf hres
    constructor
    · rw [genValue]
      simp [hov, hnul, hex, hdef, hxf, callFakerMethod, hres]
    · exact ⟨"openapi-mocks: \"",
        "\" is not a valid Faker dot-path or is not invocable", rfl⟩
  · intro f env schema opts st nm sp hov hnul hex hdef hxf hpn hne hsd hres
      hallOf honeOf hanyOf htp hen
    rw [genValue]
    simp [hov, hnul, hex, hdef, hxf, hpn, hne, hsd, callFakerMethod, hres,
      hallOf, honeOf, hanyOf, nonEmptyL, resolveType, htp]
    rcases hfs : fbString env.impl schema st with ⟨v, st1⟩
    rw [fbValue_string f env schema st v st1 htp hen hfs]
    exact ⟨_, rfl⟩

/-- Claim C5 witness: (i) the `x-faker-method` failure on `schXF` over the
resolve-nothing provider propagates as the descriptive thrown error; (ii)
the `email` smart default on `envC5` is not invocable yet the run
succeeds. -/
theorem unresolvable_generator_paths_witness :
    (genValue 1 envNone schXF {} (mkFaker 7) =
      .error (.thrown (fakerErrMsg "nonexistent.method")) ∧
      Mentions "nonexistent.method" (fakerErrMsg "nonexistent.method")) ∧
    (∃ out, genValue 3 envC5 strSchema optsC5 (mkFaker 3) = .ok out) :=
  ⟨unresolvable_generator_paths.1 0 envNone schXF {} (mkFaker 7)
      "nonexistent.method" rfl rfl rfl rfl rfl rfl,
   unresolvable_generator_paths.2 0 envC5 strSchema optsC5 (mkFaker 3)
      "email" "internet.email" rfl rfl rfl rfl rfl rfl (by decide) rfl rfl
      rfl rfl rfl rfl rfl⟩

theorem clamp_le (p : Nat × Nat) :
    (if p.1 > p.2 then (p.1, p.1) else (p.1, p.2)).1 ≤
      (if p.1 > p.2 then (p.1, p.1) else (p.1, p.2)).2 := by
  by_cases h : p.1 > p.2
  · rw [if_pos h]
  · rw [if_neg h]; dsimp only; omega

theorem fInt_bounds (lo hi : Nat) (st : FakerState) (h : lo ≤ hi) :
    lo ≤ (fInt lo hi st).1 ∧ (fInt lo hi st).1 ≤ hi := by
  unfold fInt
  dsimp only
  rw [if_pos h]
  have hm : (fNext st).1 % (hi - lo + 1) < hi - lo + 1 :=
    Nat.mod_lt _ (Nat.succ_pos _)
  omega

theorem effBounds_schema (s : SchemaNode) (pName : Option String) (ovPath : String)
    (als : List (String × (Nat × Nat))) (m n : Nat)
    (hm : s.minItems = some m) (hn : s.maxItems = some n) (hmn : m ≤ n)
    (hlk : lookupALKey als pName ovPath = none) :
    effBounds s pName ovPath als = (m, n) := by
  unfold effBounds
  rw [hm, hn, hlk]
  dsimp only [Option.getD]
  rw [if_neg (by omega)]

theorem effBounds_default (s : SchemaNode) (pName : Option String) (ovPath : String)
    (als : List (String × (Nat × Nat)))
    (hm : s.minItems = none) (hn : s.maxItems = none)
    (hlk : lookupALKey als pName ovPath = none) :
    effBounds s pName ovPath als = (0, 5) := by
  unfold effBounds
  rw [hm, hn, hlk]
  dsimp only [Option.getD]
  rw [if_neg (by omega)]

theorem genItems_length :
    ∀ (count f : Nat) (env : Env) (itemId : Option Nat) (opts : GenOpts)
      (ovPath : String) (i : Nat) (st : FakerState) (vs : List JValue)
      (st' : FakerState) (ms : List Mut),
      genItems f env itemId opts ovPath i count st = .ok (vs, st', ms) →
      vs.length = count := by
  intro count
  induction count with
  | zero =>
      intro f env itemId opts ovPath i st vs st' ms hrun
      cases f with
      | zero => rw [genItems_zero] at hrun; exact Except.noConfusion hrun
      | succ f =>
          rw [genItems.eq_def] at hrun
          dsimp only at hrun
          simp only [Except.ok.injEq, Prod.mk.injEq] at hrun
          obtain ⟨hv, -, -⟩ := hrun
          subst hv
          rfl
  | succ k ih =>
      intro f env itemId opts ovPath i st vs st' ms hrun
      cases f with
      | zero => rw [genItems_zero] at hrun; exact Except.noConfusion hrun
      | succ f =>
          rw [genItems.eq_def] at hrun
          dsimp only at hrun
          cases itemId with
          | some id =>
              dsimp only at hrun
              cases hgv : genValue f env (getNode env id)
                  { opts with overridePath :=
                    if ovPath = "" then toString i else ovPath ++ "." ++ toString i }
                  st with
              | error e =>
                  rw [hgv] at hrun
                  dsimp only at hrun
                  exact Except.noConfusion hrun
              | ok out =>
                  rw [hgv] at hrun
                  dsimp only at hrun
                  cases hgi : genItems f env (some id) opts ovPath (i + 1) k out.st with
                  | error e =>
                      rw [hgi] at hrun
                      dsimp only at hrun
                      exact Except.noConfusion hrun
                  | ok r =>
                      obtain ⟨vs2, st2, ms2⟩ := r
                      rw [hgi] at hrun
                      dsimp only at hrun
                      simp only [Except.ok.injEq, Prod.mk.injEq] at hrun
                      obtain ⟨hv, -, -⟩ := hrun
                      subst hv
                      simp [ih f env (some id) opts ovPath (i + 1) out.st vs2 st2 ms2 hgi]
          | none =>
              dsimp only at hrun
              cases hgi : genItems f env none opts ovPath (i + 1) k
                  (fCall "lorem.word" st).2 with
              | error e =>
                  rw [hgi] at hrun
                  dsimp only at hrun
                  exact Except.noConfusion hrun
              | ok r =>
                  obtain ⟨vs2, st2, ms2⟩ := r
                  rw [hgi] at hrun
                  dsimp only at hrun
                  simp only [Except.ok.injEq, Prod.mk.injEq] at hrun
                  obtain ⟨hv, -, -⟩ := hrun
                  subst hv
                  simp [ih f env none opts ovPath (i + 1) _ vs2 st2 ms2 hgi]

/-- Claim C7: for every array schema declaring `minItems = m` and
`maxItems = n` (`m ≤ n`) with no matching array-length override, every
seed's generated array length L satisfies `m ≤ L ≤ n`; with neither schema
bounds nor an override the length is at most 5; and the effective bounds
always satisfy min ≤ max (the final clamp). -/
theorem array_length_bounds :
    (∀ (f : Nat) (env : Env) (s : SchemaNode) (opts : GenOpts)
        (ovPath : String) (pName : Option String) (st : FakerState)
        (m n : Nat) (vs : List JValue) (st' : FakerState) (ms : List Mut),
      s.minItems = some m → s.maxItems = some n → m ≤ n →
      lookupALKey opts.arrayLengths pName ovPath = none →
      genArray f env s opts ovPath pName st = .ok (vs, st', ms) →
      m ≤ vs.length ∧ vs.length ≤ n) ∧
    (∀ (f : Nat) (env : Env) (s : SchemaNode) (opts : GenOpts)
        (ovPath : String) (pName : Option String) (st : FakerState)
        (vs : List JValue) (st' : FakerState) (ms : List Mut),
      s.minItems = none → s.maxItems = none →
      lookupALKey opts.arrayLengths pName ovPath = none →
      genArray f env s opts ovPath pName st = .ok (vs, st', ms) →
      vs.length ≤ 5) ∧
    (∀ (s : SchemaNode) (pName : Option String) (ovPath : String)
        (als : List (String × (Nat × Nat))),
      (effBounds s pName ovPath als).1 ≤ (effBounds s pName ovPath als).2) := by
  refine ⟨?_, ?_, ?_⟩
  · intro f env s opts ovPath pName st m n vs st' ms hm hn hmn hlk hrun
    cases f with
    | zero => rw [genArray_zero] at hrun; exact Except.noConfusion hrun
    | succ f =>
        rw [genArray] at hrun
        dsimp only at hrun
        have hlen : vs.length = (fInt (effBounds s pName ovPath opts.arrayLengths).1
            (effBounds s pName ovPath opts.arrayLengths).2 st).1 :=
          genItems_length _ _ _ _ _ _ _ _ _ _ _ hrun
        rw [effBounds_schema s pName ovPath opts.arrayLengths m n hm hn hmn hlk] at hlen
        dsimp only at hlen
        obtain ⟨h1, h2⟩ := fInt_bounds m n st hmn
        omega
  · intro f env s opts ovPath pName st vs st' ms hm hn hlk hrun
    cases f with
    | zero => rw [genArray_zero] at hrun; exact Except.noConfusion hrun
    | succ f =>
        rw [genArray] at hrun
        dsimp only at hrun
        have hlen : vs.length = (fInt (effBounds s pName ovPath opts.arrayLengths).1
            (effBounds s pName ovPath opts.arrayLengths).2 st).1 :=
          genItems_length _ _ _ _ _ _ _ _ _ _ _ hrun
        rw [effBounds_default s pName ovPath opts.arrayLengths hm hn hlk] at hlen
        dsimp only at hlen
        obtain ⟨h1, h2⟩ := fInt_bounds 0 5 st (by omega)
        omega
  · intro s pName ovPath als
    unfold effBounds
    dsimp only
    exact clamp_le _

/-- Claim C7 witness: the `minItems: 2`/`maxItems: 4` witness schema
generates 4 items at seed 11 (within [2,4]); an unbounded schema generates
1 item at seed 2 (within [0,5]); and the effective bounds of the witness
schema are ordered. -/
theorem array_length_bounds_witness :
    (2 ≤ ([JValue.str "lorem.words:1#745227174", JValue.str "lorem.words:5#764981652",
        JValue.str "lorem.words:2#1777857586",
        JValue.str "lorem.words:3#1595495168"] : List JValue).length ∧
      ([JValue.str "lorem.words:1#745227174", JValue.str "lorem.words:5#764981652",
        JValue.str "lorem.words:2#1777857586",
        JValue.str "lorem.words:3#1595495168"] : List JValue).length ≤ 4) ∧
    ([JValue.str "lorem.word#1495354192"] : List JValue).length ≤ 5 ∧
    (effBounds schC7 none "" []).1 ≤ (effBounds schC7 none "" []).2 :=
  ⟨array_length_bounds.1 20 envC7 schC7 {} "" none (mkFaker 11) 2 4
      [JValue.str "lorem.words:1#745227174", JValue.str "lorem.words:5#764981652",
        JValue.str "lorem.words:2#1777857586", JValue.str "lorem.words:3#1595495168"]
      (mkFaker 1595495168) [] rfl rfl (by decide) rfl rfl,
   array_length_bounds.2.1 8 envTriv emptySchema {} "" none (mkFaker 2)
      [JValue.str "lorem.word#1495354192"] (mkFaker 1495354192) [] rfl rfl rfl rfl,
   array_length_bounds.2.2 schC7 none "" []⟩

theorem genAnyOf_zero (env : Env) (subIds : List Nat) (opts : GenOpts)
    (st : FakerState) : genAnyOf 0 env subIds opts st = .error .noFuel := by
  unfold genAnyOf; simp

theorem getNode_no_oneOf (env : Env) (hnd : noOneOfDoc env) (id : Nat) :
    (getNode env id).oneOf = none := by
  unfold getNode
  rcases hg : env.doc.get? id with - | s
  · rw [List.getD, hg]
    rfl
  · rw [List.getD, hg]
    exact hnd s (List.get?_mem hg)

theorem mergeGo_no_oneOf (env : Env) (hnd : noOneOfDoc env) :
    ∀ (ids : List Nat) (acc : MergeAcc), acc.other.oneOf = none →
      ∀ acc', mergeGo env ids acc = .ok acc' → acc'.other.oneOf = none := by
  intro ids
  induction ids with
  | nil =>
      intro acc hacc acc' hrun
      simp only [mergeGo, Except.ok.injEq] at hrun
      rw [← hrun]
      exact hacc
  | cons id rest ih =>
      intro acc hacc acc' hrun
      rw [mergeGo.eq_def] at hrun
      dsimp only at hrun
      repeat split at hrun
      all_goals first
        | exact Except.noConfusion hrun
        | exact ih _ (by simp [copyOtherKeys, getNode_no_oneOf env hnd id, hacc]) _ hrun

theorem mergeAllOf_no_oneOf (env : Env) (hnd : noOneOfDoc env) (ids : List Nat)
    (merged : SchemaNode) (h : mergeAllOf env ids = .ok merged) :
    merged.oneOf = none := by
  unfold mergeAllOf at h
  cases hm : mergeGo env ids {} with
  | error e => rw [hm] at h; exact Except.noConfusion h
  | ok acc =>
      rw [hm] at h
      dsimp only at h
      simp only [Except.ok.injEq] at h
      rw [← h]
      exact mergeGo_no_oneOf env hnd ids {} rfl acc hm

theorem no_oneOf_no_muts :
    ∀ (f : Nat),
      (∀ (env : Env) (schema : SchemaNode) (opts : GenOpts) (st : FakerState)
          (out : GenOut), noOneOfDoc env → schema.oneOf = none →
        genValue f env schema opts st = .ok out → out.muts = []) ∧
      (∀ (env : Env) (schema : SchemaNode) (opts : GenOpts) (ovPath : String)
          (st : FakerState) (r : List (String × JValue) × FakerState × List Mut),
        noOneOfDoc env →
        genObject f env schema opts ovPath st = .ok r → r.2.2 = []) ∧
      (∀ (env : Env) (props : List (String × Nat)) (required : List String)
          (opts : GenOpts) (ovPath : String) (acc : List (String × JValue))
          (st : FakerState) (r : List (String × JValue) × FakerState × List Mut),
        noOneOfDoc env →
        genProps f env props required opts ovPath acc st = .ok r → r.2.2 = []) ∧
      (∀ (env : Env) (s : SchemaNode) (opts : GenOpts) (ovPath : String)
          (pName : Option String) (st : FakerState)
          (r : List JValue × FakerState × List Mut),
        noOneOfDoc env →
        genArray f env s opts ovPath pName st = .ok r → r.2.2 = []) ∧
      (∀ (env : Env) (itemId : Option Nat) (opts : GenOpts) (ovPath : String)
          (i count : Nat) (st : FakerState)
          (r : List JValue × FakerState × List Mut),
        noOneOfDoc env →
        genItems f env itemId opts ovPath i count st = .ok r → r.2.2 = []) ∧
      (∀ (env : Env) (subIds : List Nat) (opts : GenOpts) (st : FakerState)
          (out : GenOut), noOneOfDoc env →
        genAnyOf f env subIds opts st = .ok out → out.muts = []) := by
  intro f
  induction f with
  | zero =>
      refine ⟨?_, ?_, ?_, ?_, ?_, ?_⟩
      · intro env schema opts st out hnd hone hrun
        rw [genValue_zero] at hrun; exact Except.noConfusion hrun
      · intro env schema opts ovPath st r hnd hrun
        rw [genObject_zero] at hrun; exact Except.noConfusion hrun
      · intro env props required opts ovPath acc st r hnd hrun
        rw [genProps_zero] at hrun; exact Except.noConfusion hrun
      · intro env s opts ovPath pName st r hnd hrun
        rw [genArray_zero] at hrun; exact Except.noConfusion hrun
      · intro env itemId opts ovPath i count st r hnd hrun
        rw [genItems_zero] at hrun; exact Except.noConfusion hrun
      · intro env subIds opts st out hnd hrun
        rw [genAnyOf_zero] at hrun; exact Except.noConfusion hrun
  | succ f ih =>
      obtain ⟨ih1, ih2, ih3, ih4, ih5, ih6⟩ := ih
      refine ⟨?_, ?_, ?_, ?_, ?_, ?_⟩
      · intro env schema opts st out hnd hone hrun
        rw [genValue] at hrun
        dsimp only at hrun
        repeat' split at hrun
        all_goals
          first
            | exact Except.noConfusion hrun
            | (simp only [Except.ok.injEq] at hrun; subst hrun; rfl)
            | (simp only [Except.ok.injEq] at hrun; subst hrun;
                exact ih2 _ _ _ _ _ _ hnd (by assumption))
            | (simp only [Except.ok.injEq] at hrun; subst hrun;
                exact ih4 _ _ _ _ _ _ _ hnd (by assumption))
            | exact ih1 _ _ _ _ _ hnd
                (mergeAllOf_no_oneOf _ hnd _ _ (by assumption)) hrun
            | exact ih6 _ _ _ _ _ hnd hrun
            | simp_all [nonEmptyL]
      · intro env schema opts ovPath st r hnd hrun
        rw [genObject] at hrun
        cases hP : schema.properties with
        | none =>
            rw [hP] at hrun
            dsimp only at hrun
            simp only [Except.ok.injEq] at hrun
            rw [← hrun]
        | some props =>
            rw [hP] at hrun
            dsimp only at hrun
            cases hgp : genProps f env props (schema.required.getD []) opts
                ovPath [] st with
            | error e =>
                rw [hgp] at hrun
                dsimp only at hrun
                exact Except.noConfusion hrun
            | ok q =>
                obtain ⟨fields, st1, ms⟩ := q
                rw [hgp] at hrun
                dsimp only at hrun
                simp only [Except.ok.injEq] at hrun
                rw [← hrun]
                exact ih3 env props (schema.required.getD []) opts ovPath [] st
                  (fields, st1, ms) hnd hgp
      · intro env props required opts ovPath acc st r hnd hrun
        cases props with
        | nil =>
            rw [genProps] at hrun
            simp only [Except.ok.injEq] at hrun
            rw [← hrun]
        | cons p rest =>
            obtain ⟨key, childId⟩ := p
            rw [genProps] at hrun
            dsimp only at hrun
            generalize hpp : (if ovPath = "" then key else ovPath ++ "." ++ key) = pp
              at hrun
            generalize hod : (if (!required.contains key &&
                !(opts.overrides.any (fun kv => (kv.1 = pp) ||
                    strStarts kv.1 (pp ++ ".")))) = true
              then fBool st else (false, st)) = od at hrun
            obtain ⟨omitNow, st1⟩ := od
            dsimp only at hrun
            cases omitNow with
            | true =>
                rw [if_pos rfl] at hrun
                exact ih3 _ _ _ _ _ _ _ _ hnd hrun
            | false =>
                rw [if_neg (by decide)] at hrun
                by_cases hvd : (opts.visited.contains childId &&
                    decide (opts.depth ≥ opts.maxDepth)) = true
                · rw [if_pos hvd] at hrun
                  by_cases hreqb : required.contains key = true
                  · rw [if_pos hreqb] at hrun
                    exact ih3 _ _ _ _ _ _ _ _ hnd hrun
                  · rw [if_neg hreqb] at hrun
                    exact ih3 _ _ _ _ _ _ _ _ hnd hrun
                · rw [if_neg hvd] at hrun
                  cases hgv : genValue f env (getNode env childId)
                      { opts with
                        propertyName := some key
                        overridePath := pp
                        depth := opts.depth + 1
                        visited := if opts.visited.contains childId then opts.visited
                          else childId :: opts.visited } st1 with
                  | error e =>
                      rw [hgv] at hrun
                      dsimp only at hrun
                      exact Except.noConfusion hrun
                  | ok out =>
                      rw [hgv] at hrun
                      dsimp only at hrun
                      cases hgp2 : genProps f env rest required opts ovPath
                          (jsSet acc key out.val) out.st with
                      | error e =>
                          rw [hgp2] at hrun
                          dsimp only at hrun
                          exact Except.noConfusion hrun
                      | ok q =>
                          obtain ⟨fields2, st2, ms2⟩ := q
                          rw [hgp2] at hrun
                          dsimp only at hrun
                          simp only [Except.ok.injEq] at hrun
                          rw [← hrun]
                          have h1 : out.muts = [] :=
                            ih1 _ _ _ _ _ hnd (getNode_no_oneOf env hnd childId) hgv
                          have h2 : ms2 = [] := ih3 _ _ _ _ _ _ _ _ hnd hgp2
                          simp [h1, h2]
      · intro env s opts ovPath pName st r hnd hrun
        rw [genArray] at hrun
        dsimp only at hrun
        exact ih5 _ _ _ _ _ _ _ _ hnd hrun
      · intro env itemId opts ovPath i count st r hnd hrun
        cases count with
        | zero =>
            rw [genItems.eq_def] at hrun
            dsimp only at hrun
            simp only [Except.ok.injEq] at hrun
            rw [← hrun]
        | succ k =>
            rw [genItems.eq_def] at hrun
            dsimp only at hrun
            cases itemId with
            | some id =>
                dsimp only at hrun
                cases hgv : genValue f env (getNode env id)
                    { opts with overridePath :=
                      if ovPath = "" then toString i else ovPath ++ "." ++ toString i }
                    st with
                | error e =>
                    rw [hgv] at hrun
                    dsimp only at hrun
                    exact Except.noConfusion hrun
                | ok out =>
                    rw [hgv] at hrun
                    dsimp only at hrun
                    cases hgi : genItems f env (some id) opts ovPath (i + 1) k
                        out.st with
                    | error e =>
                        rw [hgi] at hrun
                        dsimp only at hrun
                        exact Except.noConfusion hrun
                    | ok q =>
                        obtain ⟨vs2, st2, ms2⟩ := q
                        rw [hgi] at hrun
                        dsimp only at hrun
                        simp only [Except.ok.injEq] at hrun
                        rw [← hrun]
                        have h1 : out.muts = [] :=
                          ih1 _ _ _ _ _ hnd (getNode_no_oneOf env hnd id) hgv
                        have h2 : ms2 = [] := ih5 _ _ _ _ _ _ _ _ hnd hgi
                        simp [h1, h2]
            | none =>
                dsimp only at hrun
                cases hgi : genItems f env none opts ovPath (i + 1) k
                    (fCall "lorem.word" st).2 with
                | error e =>
                    rw [hgi] at hrun
                    dsimp only at hrun
                    exact Except.noConfusion hrun
                | ok q =>
                    obtain ⟨vs2, st2, ms2⟩ := q
                    rw [hgi] at hrun
                    dsimp only at hrun
                    simp only [Except.ok.injEq] at hrun
                    rw [← hrun]
                    have h2 : ms2 = [] := ih5 _ _ _ _ _ _ _ _ hnd hgi
                    simp [h2]
      · intro env subIds opts st out hnd hrun
        rw [genAnyOf] at hrun
        dsimp only at hrun
        repeat' split at hrun
        all_goals
          first
            | exact Except.noConfusion hrun
            | exact ih1 _ _ _ _ _ hnd (getNode_no_oneOf env hnd _) hrun
            | exact ih1 _ _ _ _ _ hnd
                (mergeAllOf_no_oneOf _ hnd _ _ (by assumption)) hrun

/-- Claim C9 counterexample: generating the discriminated `oneOf` schema of
`docC9` records exactly one schema-tree write — the discriminator property
`kind` is assigned into the `example` object of sub-schema 1, which the
engine returned by reference — and applying that write changes the
document: the caller-supplied schema tree is mutated. -/
theorem oneOf_discriminator_mutates :
    mutsOf (genValue 10 envC9 (getNode envC9 0) {} (mkFaker 1)) = some [mutC9] ∧
    applyMut docC9 mutC9 ≠ docC9 := by
  refine ⟨rfl, fun h => ?_⟩
  have hobs := congrArg (fun doc =>
    match (List.getD doc 1 emptySchema).example? with
    | some (.obj fs) => jsHas fs "kind"
    | _ => false) h
  exact absurd hobs (by decide)

/-- Claim C9 (amended): the engine's only schema-tree write is the `oneOf`
discriminator assignment.  Whenever no node of the document carries a
`oneOf` and the entry schema itself has none, every successful
`generateValueForSchema` run reports an empty mutation record: the
caller-supplied schema tree is structurally identical before and after the
call.  With a discriminated `oneOf` the tree can be mutated (see the
counterexample), so the unconditional claim is false. -/
theorem no_oneOf_schema_unmutated (fuel : Nat) (env : Env) (schema : SchemaNode)
    (opts : GenOpts) (st : FakerState) (out : GenOut)
    (hnd : noOneOfDoc env) (hone : schema.oneOf = none)
    (hrun : genValue fuel env schema opts st = .ok out) : out.muts = [] :=
  (no_oneOf_no_muts fuel).1 env schema opts st out hnd hone hrun

/-- Claim C9 witness: a plain string-schema run over the empty document
reports no schema-tree writes. -/
theorem no_oneOf_schema_unmutated_witness :
    (⟨.str "lorem.words:1#1406932606", mkFaker 1406932606, none, []⟩ : GenOut).muts
      = [] :=
  no_oneOf_schema_unmutated 3 envTriv strSchema {} (mkFaker 0)
    ⟨.str "lorem.words:1#1406932606", mkFaker 1406932606, none, []⟩
    (by intro n hn; simp [envTriv] at hn) rfl rfl
